import Mathlib

/-!
Shallow embedding of the crossing-detector plugin core
(`src/Source/CrossingDetector.cpp`, `src/Source/CrossingDetector.h`,
`src/Source/CircularArray.h`).

Machine floats are modelled as exact rationals (`ℚ`); C `int` values are
modelled as `ℤ` (or `ℕ` where the source guarantees non-negativity).
Float-to-int conversions truncate toward zero, as in C, via `qtrunc`.
-/

/-- C float-to-int conversion: truncation toward zero. -/
def qtrunc (x : ℚ) : ℤ := if 0 ≤ x then ⌊x⌋ else ⌈x⌉

/-- C `fmod`: remainder with the sign of the dividend,
`fmod a m = a - m * trunc (a / m)`. -/
def qfmod (a m : ℚ) : ℚ := a - m * qtrunc (a / m)

/-- The `mod` helper from `CircularArray.h`: `(x % m + m) % m`
with C's truncated `%` operator. -/
def cmod (x m : ℤ) : ℤ := (x.tmod m + m).tmod m

theorem Int.neg_tmod_left (a b : ℤ) : (-a).tmod b = -(a.tmod b) := by
  rw [Int.tmod_def, Int.tmod_def, Int.neg_tdiv]; ring

theorem tmod_bounds {x m : ℤ} (hm : 0 < m) : -m < x.tmod m ∧ x.tmod m < m := by
  constructor
  · rcases le_or_lt 0 x with hx | hx
    · have := Int.tmod_nonneg m hx
      omega
    · have h1 : x.tmod m = -((-x).tmod m) := by
        rw [← Int.neg_tmod_left]; simp
      have h2 : (-x).tmod m < m := Int.tmod_lt_of_pos (-x) hm
      omega
  · rcases le_or_lt 0 x with hx | hx
    · exact Int.tmod_lt_of_pos x hm
    · have h1 : x.tmod m = -((-x).tmod m) := by
        rw [← Int.neg_tmod_left]; simp
      have h2 : 0 ≤ (-x).tmod m := Int.tmod_nonneg m (by omega)
      omega

theorem cmod_eq_emod (x m : ℤ) (hm : 0 < m) : cmod x m = x % m := by
  unfold cmod
  have hb := @tmod_bounds x m hm
  have h0 : 0 ≤ x.tmod m + m := by omega
  rw [Int.tmod_eq_emod h0 (by omega), Int.add_emod_self]
  rw [Int.tmod_def]
  have : x - m * x.tdiv m = x + m * (-(x.tdiv m)) := by ring
  rw [this, Int.add_mul_emod_self_left]

theorem cmod_nonneg (x m : ℤ) (hm : 0 < m) : 0 ≤ cmod x m := by
  rw [cmod_eq_emod x m hm]; exact Int.emod_nonneg x (by omega)

theorem cmod_lt (x m : ℤ) (hm : 0 < m) : cmod x m < m := by
  rw [cmod_eq_emod x m hm]; exact Int.emod_lt_of_pos x hm

theorem qtrunc_dist {z : ℚ} : -1 < z - qtrunc z ∧ z - qtrunc z < 1 := by
  unfold qtrunc
  split
  · constructor
    · have := Int.floor_le z; linarith
    · have := Int.sub_one_lt_floor z; linarith
  · constructor
    · have := Int.ceil_lt_add_one z; linarith
    · have := Int.le_ceil z; linarith

theorem qfmod_bounds {a m : ℚ} (hm : 0 < m) : -m < qfmod a m ∧ qfmod a m < m := by
  have hne : m ≠ 0 := ne_of_gt hm
  have hrw : qfmod a m = m * (a / m - qtrunc (a / m)) := by
    unfold qfmod; field_simp
  have hd := @qtrunc_dist (a / m)
  constructor
  · rw [hrw]; nlinarith [hd.1]
  · rw [hrw]; nlinarith [hd.2]

/-- `CrossingDetector::toEquivalentInRange` (CrossingDetector.cpp lines 945 to 966),
with the range passed as the pair `(bottom, top)` = `(range[0], range[1])`.
The null-pointer guard is omitted (the two call sites pass member arrays). -/
def toEquivalentInRange (x bottom top : ℚ) : ℚ :=
  if x ≤ top ∧ bottom ≤ x then x
  else
    let rangeSize := top - bottom
    if rangeSize = 0 then bottom
    else
      let rem := qfmod (x - bottom) rangeSize
      if 0 < rem then bottom + rem else bottom + rem + rangeSize

/-- `CrossingDetector::errorFromTarget` (CrossingDetector.cpp lines 922 to 942);
`lo, hi` are `indicatorRange[0], indicatorRange[1]`. -/
def errorFromTarget (useIndicatorRange : Bool) (lo hi target x : ℚ) : ℚ :=
  if useIndicatorRange then
    let rangeSize := hi - lo
    let linearErr := x - target
    if |linearErr| < rangeSize / 2 then linearErr
    else if 0 < linearErr then linearErr - rangeSize else linearErr + rangeSize
  else x - target

/-- The adaptive-threshold learner state
(fields `currLearningRate`, `currMinLearningRate`, `currLRDivisor`,
`constantThresh` of `CrossingDetector`). -/
structure AdaptiveState where
  currLearningRate : ℚ
  currMinLearningRate : ℚ
  currLRDivisor : ℚ
  constantThresh : ℚ
  deriving DecidableEq

/-- `CrossingDetector::restartAdaptiveThreshold` (CrossingDetector.cpp lines 915 to 920). -/
def restartAdaptiveThreshold (startLearningRate minLearningRate : ℚ)
    (s : AdaptiveState) : AdaptiveState :=
  { currLRDivisor := 1
    currLearningRate := startLearningRate
    currMinLearningRate := minLearningRate
    constantThresh := s.constantThresh }

/-- The learner update performed by `CrossingDetector::handleTTLEvent`
(CrossingDetector.cpp lines 545 to 585) upon receiving an indicator event whose
first metadata value is a double `eventValue`, while in Adaptive mode.
The channel and metadata-decoding guards are outside the model; the
`adaptThreshPaused` gate is kept. -/
def handleIndicatorEvent (adaptThreshPaused useIndicatorRange : Bool)
    (indLo indHi indicatorTarget decayRate : ℚ) (useAdaptThreshRange : Bool)
    (thLo thHi : ℚ) (s : AdaptiveState) (eventValue : ℚ) : AdaptiveState :=
  if adaptThreshPaused then s
  else
    let eventErr := errorFromTarget useIndicatorRange indLo indHi indicatorTarget eventValue
    let newLRDivisor := s.currLRDivisor + decayRate
    let currDecayingLR := s.currLearningRate - s.currMinLearningRate
    let newLearningRate := currDecayingLR / newLRDivisor + s.currMinLearningRate
    let newThresh := s.constantThresh - newLearningRate * eventErr
    { currLRDivisor := newLRDivisor
      currLearningRate := newLearningRate
      currMinLearningRate := s.currMinLearningRate
      constantThresh :=
        if useAdaptThreshRange then toEquivalentInRange newThresh thLo thHi else newThresh }

/-- Sample-rate dependent settings computed by
`CrossingDetectorSettings::updateSampleRateDependentValues`
(CrossingDetector.cpp lines 55 to 65): `ceil` for the event duration and
buffer-end mask, `floor` for the timeout. -/
structure SettingsSamp where
  eventDurationSamp : ℤ
  timeoutSamp : ℤ
  bufferEndMaskSamp : ℤ
  averageNewSampWeight : ℚ
  deriving DecidableEq

def updateSampleRateDependentValues (eventDuration timeout bufferEndMask : ℤ)
    (averageDecaySeconds sampleRate : ℚ) : SettingsSamp :=
  { eventDurationSamp := ⌈(eventDuration * sampleRate / 1000 : ℚ)⌉
    timeoutSamp := ⌊(timeout * sampleRate / 1000 : ℚ)⌋
    bufferEndMaskSamp := ⌈(bufferEndMask * sampleRate / 1000 : ℚ)⌉
    averageNewSampWeight := 1 / (averageDecaySeconds * sampleRate) }

/-- The slice of processor state touched by `CrossingDetector::startAcquisition`. -/
structure JumpAndLearnerState where
  jumpLimitElapsed : ℤ
  adaptive : AdaptiveState
  deriving DecidableEq

/-- `CrossingDetector::startAcquisition` (CrossingDetector.cpp lines 828 to 839):
sets `jumpLimitElapsed = jumpLimitSleep * sampleRate` (int assignment, so
truncated) and recomputes the ms-to-sample conversions.  It touches nothing
else; in particular it does not call `restartAdaptiveThreshold`. -/
def startAcquisition (jumpLimitSleep sampleRate : ℚ)
    (eventDuration timeout bufferEndMask : ℤ) (averageDecaySeconds : ℚ)
    (s : JumpAndLearnerState) : JumpAndLearnerState × SettingsSamp :=
  ({ jumpLimitElapsed := qtrunc (jumpLimitSleep * sampleRate), adaptive := s.adaptive },
   updateSampleRateDependentValues eventDuration timeout bufferEndMask
     averageDecaySeconds sampleRate)

/-- The detector parameters read by the per-buffer processing loop and by
`shouldTrigger`.  `bufferEndMaskSamp`, `eventDurationSamp` and `timeoutSamp`
are the per-stream sample-converted settings. -/
structure Params where
  posOn : Bool
  negOn : Bool
  pastSpan : ℕ
  futureSpan : ℕ
  pastStrict : ℚ
  futureStrict : ℚ
  useJumpLimit : Bool
  jumpLimit : ℚ
  jumpLimitSleep : ℚ
  sampleRate : ℚ
  useBufferEndMask : Bool
  bufferEndMaskSamp : ℤ
  eventDurationSamp : ℤ
  timeoutSamp : ℤ
  deriving DecidableEq

/-- `CrossingDetector::shouldTrigger` (CrossingDetector.cpp lines 884 to 913).
The C function mutates `jumpLimitElapsed`, so the model returns the decision
paired with the updated `jumpLimitElapsed`. -/
def shouldTrigger (P : Params) (jumpLimitElapsed pastSamplesAbove futureSamplesAbove : ℤ)
    (direction : Bool) (preVal postVal preThresh postThresh : ℚ) : Bool × ℤ :=
  if P.useJumpLimit ∧ P.jumpLimit ≤ |postVal - preVal| then (false, 0)
  else if (jumpLimitElapsed : ℚ) ≤ P.jumpLimitSleep * P.sampleRate then
    (false, jumpLimitElapsed + 1)
  else
    let pastSamplesNeeded : ℤ :=
      if P.pastSpan ≠ 0 then ⌈(P.pastSpan : ℚ) * P.pastStrict⌉ else 0
    let futureSamplesNeeded : ℤ :=
      if P.futureSpan ≠ 0 then ⌈(P.futureSpan : ℚ) * P.futureStrict⌉ else 0
    let preSat : Bool := direction != decide (preThresh < preVal)
    let postSat : Bool := direction == decide (postThresh < postVal)
    let pastSat : Bool := decide (pastSamplesNeeded ≤
      if direction then (P.pastSpan : ℤ) - pastSamplesAbove else pastSamplesAbove)
    let futureSat : Bool := decide (futureSamplesNeeded ≤
      if direction then futureSamplesAbove else (P.futureSpan : ℤ) - futureSamplesAbove)
    (preSat && postSat && pastSat && futureSat, jumpLimitElapsed)

theorem qtrunc_le_self {x : ℚ} (h : 0 ≤ x) : (qtrunc x : ℚ) ≤ x := by
  unfold qtrunc; rw [if_pos h]; exact Int.floor_le x

theorem qtrunc_neg_one : qtrunc (-1 : ℚ) = -1 := by
  have h2 : ⌈(-1 : ℚ)⌉ = -1 := by rw [Int.ceil_eq_iff]; norm_num
  norm_num [qtrunc, h2]

/-- Claim C6 (counterexample): the claim asserts that for out-of-range `x`
the result lies in the half-open interval `[lo, hi)` and that `hi ≤ lo`
yields `lo`.  Both parts fail: `toEquivalentInRange (-1) 0 1 = 1`, which is
not below `hi = 1`, and for the reversed range `lo = 1 > hi = 0` the function
returns `-1/2`, not `lo = 1`. -/
theorem C6_counterexample :
    toEquivalentInRange (-1) 0 1 = 1
    ∧ ¬((0 : ℚ) ≤ toEquivalentInRange (-1) 0 1 ∧ toEquivalentInRange (-1) 0 1 < 1)
    ∧ toEquivalentInRange (1/2) 1 0 = -1/2
    ∧ toEquivalentInRange (1/2) 1 0 ≠ 1 := by
  have h1 : toEquivalentInRange (-1) 0 1 = 1 := by
    norm_num [toEquivalentInRange, qfmod, qtrunc_neg_one]
  have h2 : toEquivalentInRange (1/2) 1 0 = -1/2 := by
    have hf : ⌊(1/2 : ℚ)⌋ = 0 := by rw [Int.floor_eq_iff] <;> norm_num
    norm_num [toEquivalentInRange, qfmod, qtrunc, hf]
  refine ⟨h1, ?_, h2, ?_⟩
  · rw [h1]; norm_num
  · rw [h2]; norm_num

/-- Claim C6 (amended): `toEquivalentInRange x lo hi` returns `x` unchanged
when `lo ≤ x ≤ hi`; returns `lo` when `hi = lo` (degenerate range, no
division by zero); and when `lo < hi` and `x` is outside the range it
returns a value in the half-open interval `(lo, hi]` (the upper endpoint is
attained, e.g. when `x - lo` is an exact multiple of `hi - lo`). -/
theorem C6_amended (x bottom top : ℚ) :
    (bottom ≤ x → x ≤ top → toEquivalentInRange x bottom top = x)
    ∧ toEquivalentInRange x bottom bottom = bottom
    ∧ (bottom < top → ¬(x ≤ top ∧ bottom ≤ x) →
        bottom < toEquivalentInRange x bottom top
          ∧ toEquivalentInRange x bottom top ≤ top) := by
  refine ⟨?_, ?_, ?_⟩
  · intro h1 h2
    simp [toEquivalentInRange, h1, h2]
  · by_cases h : x ≤ bottom ∧ bottom ≤ x
    · have hx : x = bottom := le_antisymm h.1 h.2
      simp [toEquivalentInRange, hx]
    · simp [toEquivalentInRange, h]
  · intro hlt hout
    have hm : 0 < top - bottom := by linarith
    have hb := @qfmod_bounds (x - bottom) (top - bottom) hm
    have hne : top - bottom ≠ 0 := ne_of_gt hm
    simp only [toEquivalentInRange, if_neg hout, if_neg hne]
    split
    · constructor <;> linarith [hb.2]
    · constructor <;> linarith [hb.1]

theorem C6_amended_witness :
    (0 : ℚ) < 1 ∧ ¬((-1 : ℚ) ≤ 1 ∧ (0 : ℚ) ≤ -1)
    ∧ (0 < toEquivalentInRange (-1) 0 1 ∧ toEquivalentInRange (-1) 0 1 ≤ 1) :=
  ⟨by norm_num, by norm_num, (C6_amended (-1) 0 1).2.2 (by norm_num) (by norm_num)⟩

theorem C8aux (mlr t0 : ℚ) (k : ℕ) :
    (fun t => handleIndicatorEvent false false (-180) 180 0 0 false (-180) 180 t 1)^[k]
      ⟨1/10, mlr, 1, t0⟩ = ⟨1/10, mlr, 1, t0 - k * (1/10)⟩ := by
  induction k with
  | zero => simp
  | succ n ih =>
    rw [Function.iterate_succ_apply', ih]
    simp only [handleIndicatorEvent, errorFromTarget]
    norm_num [AdaptiveState.mk.injEq]
    ring

/-- Claim C8: in Adaptive mode with the indicator range disabled,
`target = 0`, `startLearningRate = 0.1`, `decayRate = 0`, the learner not
paused and the threshold range disabled, each indicator event with payload
`v = 1.0` applies the recurrence `divisor += 0`,
`learningRate = (learningRate - minLearningRate)/divisor + minLearningRate`,
`thresh -= learningRate * 1`; after the first event the threshold equals
`thresh0 - 0.1`, and repeated events strictly decrease `constantThresh`. -/
theorem C8_adaptive_update (s : AdaptiveState) (minLearningRate : ℚ) (k : ℕ) :
    (∀ t : AdaptiveState,
        handleIndicatorEvent false false (-180) 180 0 0 false (-180) 180 t 1 =
          { currLearningRate := (t.currLearningRate - t.currMinLearningRate) /
              (t.currLRDivisor + 0) + t.currMinLearningRate
            currMinLearningRate := t.currMinLearningRate
            currLRDivisor := t.currLRDivisor + 0
            constantThresh := t.constantThresh - ((t.currLearningRate - t.currMinLearningRate) /
              (t.currLRDivisor + 0) + t.currMinLearningRate) * 1 })
    ∧ ((fun t => handleIndicatorEvent false false (-180) 180 0 0 false (-180) 180 t 1)^[1]
        (restartAdaptiveThreshold (1/10) minLearningRate s)).constantThresh
        = s.constantThresh - 1/10
    ∧ ((fun t => handleIndicatorEvent false false (-180) 180 0 0 false (-180) 180 t 1)^[k+1]
        (restartAdaptiveThreshold (1/10) minLearningRate s)).constantThresh
        < ((fun t => handleIndicatorEvent false false (-180) 180 0 0 false (-180) 180 t 1)^[k]
        (restartAdaptiveThreshold (1/10) minLearningRate s)).constantThresh := by
  have hstart : restartAdaptiveThreshold (1/10) minLearningRate s =
      ⟨1/10, minLearningRate, 1, s.constantThresh⟩ := rfl
  refine ⟨?_, ?_, ?_⟩
  · intro t
    simp only [handleIndicatorEvent, errorFromTarget]
    norm_num
  · rw [hstart, C8aux]
    norm_num
  · rw [hstart, C8aux, C8aux]
    simp only []
    push_cast
    linarith

/-- Claim C4 (code bug): `startAcquisition` does not reset the adaptive
learner: `currLRDivisor`, `currLearningRate` and `currMinLearningRate` are
left exactly as they were (first conjunct, for every prior state); in
particular, starting acquisition from a state with `currLRDivisor = 2`
leaves it at `2 ≠ 1`, contradicting the claim.  (The learner reset lives in
`restartAdaptiveThreshold`, which `startAcquisition` never calls; the older
in-repo plugin variant called it from `enable()`.) -/
theorem C4_code_bug :
    (∀ (jumpLimitSleep sampleRate : ℚ) (eventDuration timeout bufferEndMask : ℤ)
        (averageDecaySeconds : ℚ) (s : JumpAndLearnerState),
        ((startAcquisition jumpLimitSleep sampleRate eventDuration timeout bufferEndMask
            averageDecaySeconds s).1).adaptive = s.adaptive)
    ∧ ((startAcquisition 0 30000 5 1000 3 5
          ⟨0, ⟨1/50, 1/200, 2, 7⟩⟩).1).adaptive.currLRDivisor = 2
    ∧ (2 : ℚ) ≠ 1 := by
  refine ⟨fun _ _ _ _ _ _ _ => rfl, rfl, by norm_num⟩

/-- Claim C10: the jump-limit sleep gate in `shouldTrigger` is applied
regardless of `useJumpLimit`: whenever
`jumpLimitElapsed ≤ jumpLimitSleep * sampleRate` the function returns
`false` (first conjunct); since `startAcquisition` initializes
`jumpLimitElapsed` to (the int truncation of) `jumpLimitSleep * sampleRate`,
the first candidate evaluated after any acquisition start is rejected
(second conjunct); with `useJumpLimit = false` and `jumpLimitSleep = 0` the
first call from the freshly initialized counter `0` is rejected and the
counter is incremented to `1` (third conjunct). -/
theorem C10_jump_sleep_gate :
    (∀ (P : Params) (jle pa fa : ℤ) (direction : Bool)
        (preVal postVal preThresh postThresh : ℚ),
        (jle : ℚ) ≤ P.jumpLimitSleep * P.sampleRate →
        (shouldTrigger P jle pa fa direction preVal postVal preThresh postThresh).1 = false)
    ∧ (∀ (P : Params) (pa fa : ℤ) (direction : Bool)
        (preVal postVal preThresh postThresh : ℚ)
        (eventDuration timeout bufferEndMask : ℤ) (averageDecaySeconds : ℚ)
        (s : JumpAndLearnerState),
        0 ≤ P.jumpLimitSleep * P.sampleRate →
        (shouldTrigger P
          ((startAcquisition P.jumpLimitSleep P.sampleRate eventDuration timeout
            bufferEndMask averageDecaySeconds s).1.jumpLimitElapsed)
          pa fa direction preVal postVal preThresh postThresh).1 = false)
    ∧ (∀ (P : Params) (pa fa : ℤ) (direction : Bool)
        (preVal postVal preThresh postThresh : ℚ),
        P.useJumpLimit = false → P.jumpLimitSleep = 0 →
        shouldTrigger P 0 pa fa direction preVal postVal preThresh postThresh
          = (false, 1)) := by
  have main : ∀ (P : Params) (jle pa fa : ℤ) (direction : Bool)
      (preVal postVal preThresh postThresh : ℚ),
      (jle : ℚ) ≤ P.jumpLimitSleep * P.sampleRate →
      (shouldTrigger P jle pa fa direction preVal postVal preThresh postThresh).1 = false := by
    intro P jle pa fa direction preVal postVal preThresh postThresh h
    unfold shouldTrigger
    rcases Decidable.em (P.useJumpLimit = true ∧ P.jumpLimit ≤ |postVal - preVal|) with hc | hc
    · rw [if_pos hc]
    · rw [if_neg hc, if_pos h]
  refine ⟨main, ?_, ?_⟩
  · intro P pa fa direction preVal postVal preThresh postThresh ed tm bm ads s h
    exact main P _ pa fa direction preVal postVal preThresh postThresh (qtrunc_le_self h)
  · intro P pa fa direction preVal postVal preThresh postThresh hjump hsleep
    unfold shouldTrigger
    rw [if_neg (by simp [hjump]), if_pos (by rw [hsleep]; norm_num)]
    norm_num

theorem C10_jump_sleep_gate_witness :
    ((0 : ℤ) : ℚ) ≤ (0 : ℚ) * 1
    ∧ (shouldTrigger ⟨true, false, 0, 0, 1, 1, false, 5, 0, 1, false, 0, 0, 0⟩
        0 0 0 true 0 1 0 0).1 = false :=
  ⟨by norm_num,
   C10_jump_sleep_gate.1 ⟨true, false, 0, 0, 1, 1, false, 5, 0, 1, false, 0, 0, 0⟩
     0 0 0 true 0 1 0 0 (by norm_num)⟩

/-- `CircularArray<float>` (CircularArray.h): a juce array plus a `start`
index and an all-default flag.  The element default `ElementType()` is `0`. -/
structure CircularArray where
  data : List ℚ
  start : ℕ
  isReset : Bool
  deriving DecidableEq

/-- The constructor `CircularArray(int length)`: `length` default elements. -/
def CircularArray.ofLength (length : ℕ) : CircularArray :=
  { data := List.replicate length 0, start := 0, isReset := true }

/-- `CircularArray::operator[]` (zero default on an empty array),
via `circToLinInd(index) = mod(start + index, size())`. -/
def CircularArray.get (arr : CircularArray) (index : ℤ) : ℚ :=
  if 0 < arr.data.length then
    arr.data.getD (cmod ((arr.start : ℤ) + index) (arr.data.length : ℤ)).toNat 0
  else 0

/-- `CircularArray::reset` (CircularArray.h lines 52 to 59):
`clearQuick` then insert `size()` default elements; `start = 0`. -/
def CircularArray.reset (arr : CircularArray) : CircularArray :=
  { data := List.replicate arr.data.length 0, start := 0, isReset := true }

/-- `CircularArray::clear` (CircularArray.h lines 61 to 67). -/
def CircularArray.clear (arr : CircularArray) : CircularArray :=
  { data := [], start := 0, isReset := true }

/-- `CircularArray::insertMultiple` (CircularArray.h lines 161 to 215),
for `numberOfTimesToInsertIt > 0`; the underlying `Array::insertMultiple`
at linear index `i` is `take i ++ replicate n elt ++ drop i`. -/
def CircularArray.insertMultipleCirc (arr : CircularArray) (indexToInsertAt : ℤ)
    (newElement : ℚ) (numberOfTimesToInsertIt : ℕ) : CircularArray :=
  if 0 < numberOfTimesToInsertIt then
    let length := arr.data.length
    let idx : ℤ :=
      if indexToInsertAt < 0 ∨ (length : ℤ) ≤ indexToInsertAt then length else indexToInsertAt
    let start1 : ℕ :=
      if 0 < length ∧ arr.isReset then (((length : ℤ) - idx).toNat) % length else arr.start
    let linIndexToInsertAt : ℕ :=
      if 0 < length then (cmod ((start1 : ℤ) + idx - 1) (length : ℤ)).toNat + 1 else 0
    let data1 := List.take linIndexToInsertAt arr.data
      ++ List.replicate numberOfTimesToInsertIt newElement
      ++ List.drop linIndexToInsertAt arr.data
    let start2 : ℕ :=
      if linIndexToInsertAt ≤ start1 ∧ 0 < idx then start1 + numberOfTimesToInsertIt else start1
    let start3 : ℕ := if idx = 0 ∧ start2 = 0 then start2 + length else start2
    { data := data1, start := start3
      isReset := if newElement ≠ 0 then false else arr.isReset }
  else arr

/-- `CircularArray::removeLast` (CircularArray.h lines 217 to 249);
`Array::removeLast n` keeps the first `size - n` elements and
`Array::removeRange lo n` removes the elements in `[lo, lo + n)`. -/
def CircularArray.removeLast (arr : CircularArray) (howManyToRemove : ℤ) : CircularArray :=
  if 0 < howManyToRemove then
    let length := arr.data.length
    if (length : ℤ) ≤ howManyToRemove then arr.clear
    else if arr.isReset then
      { data := List.take (length - howManyToRemove.toNat) arr.data, start := 0
        isReset := arr.isReset }
    else
      let numRemoveFromStart : ℤ := min (arr.start : ℤ) howManyToRemove
      let numRemoveFromEnd : ℤ := howManyToRemove - numRemoveFromStart
      let d1 := List.take (length - numRemoveFromEnd.toNat) arr.data
      let lo : ℕ := arr.start - numRemoveFromStart.toNat
      { data := List.take lo d1 ++ List.drop (lo + numRemoveFromStart.toNat) d1
        start := lo, isReset := arr.isReset }
  else arr

/-- `CircularArray::resize` (CircularArray.h lines 75 to 94). -/
def CircularArray.resize (arr : CircularArray) (targetNumItems : ℕ) : CircularArray :=
  if targetNumItems = 0 then arr.clear
  else if arr.data.length < targetNumItems then
    arr.insertMultipleCirc (arr.data.length : ℤ) 0 (targetNumItems - arr.data.length)
  else arr.removeLast ((arr.data.length : ℤ) - (targetNumItems : ℤ))

/-- The write loops of `CircularArray::enqueueArray`: for `i < k`,
set linear index `f i` to `g i`. -/
def setLoop (data : List ℚ) (f : ℕ → ℕ) (g : ℕ → ℚ) : ℕ → List ℚ
  | 0 => data
  | k + 1 => (setLoop data f g k).set (f k) (g k)

/-- `CircularArray::enqueueArray` (CircularArray.h lines 134 to 159). -/
def CircularArray.enqueueArray (arr : CircularArray) (newValues : List ℚ)
    (numberOfElements : ℕ) : CircularArray :=
  let length := arr.data.length
  let n := min numberOfElements length
  let nToSkip := numberOfElements - n
  let nFirstSegment := min n (length - arr.start)
  let nSecondSegment := n - nFirstSegment
  let d1 := setLoop arr.data (fun i => arr.start + i)
    (fun i => newValues.getD (nToSkip + i) 0) nFirstSegment
  let d2 := setLoop d1 (fun i => i)
    (fun i => newValues.getD (nToSkip + nFirstSegment + i) 0) nSecondSegment
  { data := d2, start := (cmod ((arr.start : ℤ) + (n : ℤ)) (length : ℤ)).toNat
    isReset := false }

/-- A pending (deferred) turn-off event: the absolute sample number it
carries and the absolute candidate crossing index recorded in its metadata. -/
structure PendingEv where
  ts : ℤ
  cross : ℤ
  deriving DecidableEq

/-- An emitted TTL event: the buffer (by index in the run) it was added to,
the absolute sample number it carries, its state (`true` = turning on) and
the absolute candidate crossing index from its metadata. -/
structure Ev where
  bufIdx : ℕ
  ts : ℤ
  eventState : Bool
  cross : ℤ
  deriving DecidableEq

/-- The per-stream mutable detector state carried across buffers:
voting counters, the refractory counter `sampToReenable`,
`jumpLimitElapsed`, the two history rings and the pending turn-off. -/
structure DetectorState where
  pastSamplesAbove : ℤ
  futureSamplesAbove : ℤ
  sampToReenable : ℤ
  jumpLimitElapsed : ℤ
  inputHistory : CircularArray
  thresholdHistory : CircularArray
  turnoffEvent : Option PendingEv
  deriving DecidableEq

/-- The `inputAt` / `thresholdAt` lambdas in `CrossingDetector::process`
(lines 378 to 387): negative indices read the history ring, non-negative
ones the current buffer. -/
def inputAt (hist : CircularArray) (rp : List ℚ) (index : ℤ) : ℚ :=
  if index < 0 then hist.get index else rp.getD index.toNat 0

/-- The state threaded through one buffer's sample loop, together with the
events emitted so far in this buffer. -/
structure LoopState where
  pastSamplesAbove : ℤ
  futureSamplesAbove : ℤ
  sampToReenable : ℤ
  jumpLimitElapsed : ℤ
  turnoffEvent : Option PendingEv
  events : List Ev
  deriving DecidableEq

/-- The voting-counter update block of the sample loop in
`CrossingDetector::process` (CrossingDetector.cpp lines 426 to 457):
returns the updated `(pastSamplesAbove, futureSamplesAbove)`. -/
def votingUpdate (P : Params) (inp thr : ℤ → ℚ) (indCross : ℤ) (pa fa : ℤ) : ℤ × ℤ :=
  (if 0 < P.pastSpan then
      pa - (if thr (indCross - 2 - (P.pastSpan : ℤ)) < inp (indCross - 2 - (P.pastSpan : ℤ))
            then 1 else 0)
         + (if thr (indCross - 2) < inp (indCross - 2) then 1 else 0)
    else pa,
   if 0 < P.futureSpan then
      fa - (if thr indCross < inp indCross then 1 else 0)
         + (if thr (indCross + (P.futureSpan : ℤ)) < inp (indCross + (P.futureSpan : ℤ))
            then 1 else 0)
    else fa)

/-- The trigger decision of one candidate evaluation: the short-circuit
`posOn && shouldTrigger(true, ...) || negOn && shouldTrigger(false, ...)`
of CrossingDetector.cpp lines 473 to 474, with the threaded
`jumpLimitElapsed` updates.  Returns the decision and the final
`jumpLimitElapsed`. -/
def triggerDecision (P : Params) (jle pa fa : ℤ)
    (preVal postVal preThresh postThresh : ℚ) : Bool × ℤ :=
  let r1 :=
    if P.posOn then shouldTrigger P jle pa fa true preVal postVal preThresh postThresh
    else (false, jle)
  let r2 :=
    if r1.1 then (false, r1.2)
    else if P.negOn then shouldTrigger P r1.2 pa fa false preVal postVal preThresh postThresh
    else (false, r1.2)
  (r1.1 || r2.1, r2.2)

/-- The candidate-evaluation and event-emission block of the sample loop
(CrossingDetector.cpp lines 466 to 514), reached when the candidate is
neither refractory nor masked; `s` already carries the updated counters. -/
def evaluateCandidate (P : Params) (bufIdx : ℕ) (startTs : ℤ) (n : ℕ)
    (inp thr : ℤ → ℚ) (indCross : ℤ) (s : LoopState) : LoopState :=
  let r2 := triggerDecision P s.jumpLimitElapsed s.pastSamplesAbove s.futureSamplesAbove
    (inp (indCross - 1)) (inp indCross) (thr (indCross - 1)) (thr indCross)
  if r2.1 then
    let onEv : Ev := { bufIdx := bufIdx, ts := startTs + max indCross 0
                       eventState := true, cross := startTs + indCross }
    let sampleNumOff : ℤ := max indCross 0 + P.eventDurationSamp
    if sampleNumOff ≤ (n : ℤ) then
      { s with
        sampToReenable := indCross + 1 + P.timeoutSamp
        jumpLimitElapsed := r2.2
        events := s.events ++ [onEv,
          { bufIdx := bufIdx, ts := startTs + sampleNumOff
            eventState := false, cross := startTs + indCross }] }
    else
      { s with
        sampToReenable := indCross + 1 + P.timeoutSamp
        jumpLimitElapsed := r2.2
        turnoffEvent := some { ts := startTs + sampleNumOff, cross := startTs + indCross }
        events := s.events ++ [onEv] }
  else
    { s with jumpLimitElapsed := r2.2 }

/-- One iteration of the sample loop in `CrossingDetector::process`
(CrossingDetector.cpp lines 396 to 515) at sample index `i` of a buffer of
`n` samples starting at absolute sample `startTs`, with fixed per-buffer
accessors `inp` / `thr` (the histories are only updated after the loop).
The RANDOM-mode re-draw has no observable effect here because the realized
per-sample thresholds are supplied through `thr`. -/
def processSample (P : Params) (bufIdx : ℕ) (startTs : ℤ) (n : ℕ)
    (inp thr : ℤ → ℚ) (i : ℕ) (s : LoopState) : LoopState :=
  let indCross : ℤ := (i : ℤ) - (P.futureSpan : ℤ)
  let pafa := votingUpdate P inp thr indCross s.pastSamplesAbove s.futureSamplesAbove
  let s1 := { s with pastSamplesAbove := pafa.1, futureSamplesAbove := pafa.2 }
  if indCross < s.sampToReenable
      ∨ (P.useBufferEndMask ∧ P.bufferEndMaskSamp < (n : ℤ) - indCross) then s1
  else evaluateCandidate P bufIdx startTs n inp thr indCross s1

/-- `processSamples ... k s` is the loop state after iterating the sample
loop on indices `0, ..., k-1`. -/
def processSamples (P : Params) (bufIdx : ℕ) (startTs : ℤ) (n : ℕ)
    (inp thr : ℤ → ℚ) : ℕ → LoopState → LoopState
  | 0, s => s
  | k + 1, s => processSample P bufIdx startTs n inp thr k
      (processSamples P bufIdx startTs n inp thr k s)

/-- The loop state a buffer starts with: the detector state's counters plus
the turn-off emission check performed at the top of
`CrossingDetector::process` (lines 355 to 362). -/
def initLoopState (bufIdx : ℕ) (startTs : ℤ) (n : ℕ) (s : DetectorState) : LoopState :=
  match s.turnoffEvent with
  | some pe =>
      if max 0 (pe.ts - startTs) < (n : ℤ) then
        { pastSamplesAbove := s.pastSamplesAbove, futureSamplesAbove := s.futureSamplesAbove
          sampToReenable := s.sampToReenable, jumpLimitElapsed := s.jumpLimitElapsed
          turnoffEvent := none
          events := [{ bufIdx := bufIdx, ts := pe.ts, eventState := false, cross := pe.cross }] }
      else
        { pastSamplesAbove := s.pastSamplesAbove, futureSamplesAbove := s.futureSamplesAbove
          sampToReenable := s.sampToReenable, jumpLimitElapsed := s.jumpLimitElapsed
          turnoffEvent := some pe, events := [] }
  | none =>
      { pastSamplesAbove := s.pastSamplesAbove, futureSamplesAbove := s.futureSamplesAbove
        sampToReenable := s.sampToReenable, jumpLimitElapsed := s.jumpLimitElapsed
        turnoffEvent := none, events := [] }

/-- One full call of `CrossingDetector::process` on a buffer given as a list
of (input sample, realized threshold) pairs: turn-off check, the sample
loop, the history enqueues and the `sampToReenable` shift (lines 327 to 542).
Returns the new detector state and the events emitted in this buffer. -/
def processBuffer (P : Params) (bufIdx : ℕ) (startTs : ℤ)
    (buf : List (ℚ × ℚ)) (s : DetectorState) : DetectorState × List Ev :=
  let n := buf.length
  let rp := buf.map Prod.fst
  let pThresh := buf.map Prod.snd
  let inp := inputAt s.inputHistory rp
  let thr := inputAt s.thresholdHistory pThresh
  let ls := processSamples P bufIdx startTs n inp thr n (initLoopState bufIdx startTs n s)
  ({ pastSamplesAbove := ls.pastSamplesAbove
     futureSamplesAbove := ls.futureSamplesAbove
     sampToReenable := max 0 (ls.sampToReenable - (n : ℤ))
     jumpLimitElapsed := ls.jumpLimitElapsed
     inputHistory := s.inputHistory.enqueueArray rp n
     thresholdHistory := s.thresholdHistory.enqueueArray pThresh n
     turnoffEvent := ls.turnoffEvent }, ls.events)

/-- Run the detector over a list of contiguous buffers (buffer `j` starts
where buffer `j - 1` ended), collecting all emitted events. -/
def runFrom (P : Params) : ℕ → ℤ → DetectorState → List (List (ℚ × ℚ)) →
    DetectorState × List Ev
  | _, _, s, [] => (s, [])
  | bufIdx, startTs, s, buf :: rest =>
      let r1 := processBuffer P bufIdx startTs buf s
      let r2 := runFrom P (bufIdx + 1) (startTs + buf.length) r1.1 rest
      (r2.1, r1.2 ++ r2.2)

/-- The detector state at acquisition start with freshly configured spans:
counters `0`, `sampToReenable = pastSpan + futureSpan + 1`, history rings of
capacity `pastSpan + futureSpan + 2` filled with the default, no pending
turn-off, and `jumpLimitElapsed` as set by `startAcquisition`. -/
def initState (P : Params) : DetectorState :=
  { pastSamplesAbove := 0
    futureSamplesAbove := 0
    sampToReenable := (P.pastSpan : ℤ) + (P.futureSpan : ℤ) + 1
    jumpLimitElapsed := qtrunc (P.jumpLimitSleep * P.sampleRate)
    inputHistory := CircularArray.ofLength (P.pastSpan + P.futureSpan + 2)
    thresholdHistory := CircularArray.ofLength (P.pastSpan + P.futureSpan + 2)
    turnoffEvent := none }

/-- The events of a run that turn the output on. -/
def onEvents (evs : List Ev) : List Ev := evs.filter (fun e => e.eventState)

/-- The events of a run that turn the output off. -/
def offEvents (evs : List Ev) : List Ev := evs.filter (fun e => !e.eventState)
theorem cmod_of_nonneg_lt {x m : ℤ} (h0 : 0 ≤ x) (h1 : x < m) : cmod x m = x := by
  rw [cmod_eq_emod x m (by omega)]; exact Int.emod_eq_of_lt h0 h1

theorem insertMultipleCirc_replicate (L t : ℕ) (h : L < t) :
    CircularArray.insertMultipleCirc ⟨List.replicate L 0, 0, true⟩ (L : ℤ) 0 (t - L)
      = ⟨List.replicate t 0, 0, true⟩ := by
  unfold CircularArray.insertMultipleCirc
  rw [if_pos (by omega : 0 < t - L)]
  rcases Nat.eq_zero_or_pos L with hL | hL
  · subst hL
    simp
  · have hcm : cmod ((L : ℤ) - 1) (L : ℤ) = (L : ℤ) - 1 :=
      cmod_of_nonneg_lt (by omega) (by omega)
    simp [hL, hcm]
    omega

theorem removeLast_replicate (L t : ℕ) (h1 : 0 < t) (h2 : t ≤ L) :
    CircularArray.removeLast ⟨List.replicate L 0, 0, true⟩ ((L : ℤ) - (t : ℤ))
      = ⟨List.replicate t 0, 0, true⟩ := by
  unfold CircularArray.removeLast
  rcases Nat.eq_or_lt_of_le h2 with hEq | hlt
  · subst hEq
    rw [if_neg (by omega)]
  · rw [if_pos (by omega : (0:ℤ) < (L:ℤ) - (t:ℤ))]
    simp only [List.length_replicate]
    rw [if_neg (by omega), if_pos trivial]
    have htn : ((L : ℤ) - (t : ℤ)).toNat = L - t := by omega
    simp [htn]
    omega

theorem reset_resize (arr : CircularArray) (t : ℕ) (ht : 0 < t) :
    (arr.reset).resize t = ⟨List.replicate t 0, 0, true⟩ := by
  have hreset : arr.reset = ⟨List.replicate arr.data.length 0, 0, true⟩ := rfl
  rw [hreset]
  unfold CircularArray.resize
  rw [if_neg (by omega)]
  simp only [List.length_replicate]
  by_cases hLt : arr.data.length < t
  · rw [if_pos hLt]
    exact insertMultipleCirc_replicate arr.data.length t hLt
  · rw [if_neg hLt]
    exact removeLast_replicate arr.data.length t ht (by omega)

theorem get_replicate_zero (W : ℕ) (j : ℤ) :
    CircularArray.get ⟨List.replicate W 0, 0, true⟩ j = 0 := by
  unfold CircularArray.get
  split
  · simp [List.getD_eq_getElem?_getD, List.getElem?_replicate]
    split <;> rfl
  · rfl

/-- The `past_span` and `future_span` branches of
`CrossingDetector::parameterValueChanged` (CrossingDetector.cpp lines 696 to
723): store the new span, set `sampToReenable = pastSpan + futureSpan + 1`,
reset and resize both history rings to `pastSpan + futureSpan + 2`, and zero
both voting counters.  `which = true` selects the `past_span` branch. -/
def setSpanParameter (which : Bool) (P : Params) (s : DetectorState) (value : ℕ) :
    Params × DetectorState :=
  let P2 := if which then { P with pastSpan := value } else { P with futureSpan := value }
  (P2,
   { s with
      sampToReenable := (P2.pastSpan : ℤ) + (P2.futureSpan : ℤ) + 1
      inputHistory := (s.inputHistory.reset).resize (P2.pastSpan + P2.futureSpan + 2)
      thresholdHistory := (s.thresholdHistory.reset).resize (P2.pastSpan + P2.futureSpan + 2)
      pastSamplesAbove := 0
      futureSamplesAbove := 0 })

/-- Claim C9: immediately after a change of `past_span` or `future_span`,
both voting counters are `0`, both history rings have size
`pastSpan + futureSpan + 2` with every element equal to the neutral default
`0`, and `sampToReenable = pastSpan + futureSpan + 1` (forcing a fresh
warm-up); no stale vote count survives the resize. -/
theorem C9_span_change (which : Bool) (P : Params) (s : DetectorState) (value : ℕ) :
    (setSpanParameter which P s value).2.pastSamplesAbove = 0
    ∧ (setSpanParameter which P s value).2.futureSamplesAbove = 0
    ∧ (setSpanParameter which P s value).2.inputHistory.data.length
        = (setSpanParameter which P s value).1.pastSpan
          + (setSpanParameter which P s value).1.futureSpan + 2
    ∧ (setSpanParameter which P s value).2.thresholdHistory.data.length
        = (setSpanParameter which P s value).1.pastSpan
          + (setSpanParameter which P s value).1.futureSpan + 2
    ∧ (∀ j : ℤ, (setSpanParameter which P s value).2.inputHistory.get j = 0)
    ∧ (∀ j : ℤ, (setSpanParameter which P s value).2.thresholdHistory.get j = 0)
    ∧ (setSpanParameter which P s value).2.sampToReenable
        = ((setSpanParameter which P s value).1.pastSpan : ℤ)
          + ((setSpanParameter which P s value).1.futureSpan : ℤ) + 1 := by
  have h1 := reset_resize s.inputHistory (P.pastSpan + value + 2) (by omega)
  have h2 := reset_resize s.thresholdHistory (P.pastSpan + value + 2) (by omega)
  have h3 := reset_resize s.inputHistory (value + P.futureSpan + 2) (by omega)
  have h4 := reset_resize s.thresholdHistory (value + P.futureSpan + 2) (by omega)
  cases which
  · simp [setSpanParameter, h1, h2, get_replicate_zero]
  · simp [setSpanParameter, h3, h4, get_replicate_zero]
theorem getD_set_ne (l : List ℚ) (i p : ℕ) (v : ℚ) (h : i ≠ p) :
    (l.set i v).getD p 0 = l.getD p 0 := by
  simp [List.getD_eq_getElem?_getD, List.getElem?_set_ne h]

theorem getD_set_self (l : List ℚ) (i : ℕ) (v : ℚ) (h : i < l.length) :
    (l.set i v).getD i 0 = v := by
  simp [List.getD_eq_getElem?_getD, List.getElem?_set_self, h]

theorem setLoop_length (d : List ℚ) (f : ℕ → ℕ) (g : ℕ → ℚ) (k : ℕ) :
    (setLoop d f g k).length = d.length := by
  induction k with
  | zero => rfl
  | succ m ih => simp [setLoop, ih]

theorem setLoop_getD_of_ne (d : List ℚ) (f : ℕ → ℕ) (g : ℕ → ℚ) (k p : ℕ)
    (h : ∀ i, i < k → f i ≠ p) :
    (setLoop d f g k).getD p 0 = d.getD p 0 := by
  induction k with
  | zero => rfl
  | succ m ih =>
    show ((setLoop d f g m).set (f m) (g m)).getD p 0 = _
    rw [getD_set_ne _ _ _ _ (h m (by omega))]
    exact ih (fun i hi => h i (by omega))

theorem setLoop_getD_eq (d : List ℚ) (f : ℕ → ℕ) (g : ℕ → ℚ) (k i : ℕ)
    (hik : i < k) (hinj : ∀ a b, f a = f b → a = b) (hlen : f i < d.length) :
    (setLoop d f g k).getD (f i) 0 = g i := by
  induction k with
  | zero => omega
  | succ m ih =>
    show ((setLoop d f g m).set (f m) (g m)).getD (f i) 0 = _
    rcases Nat.eq_or_lt_of_le (Nat.lt_succ_iff.mp hik) with hEq | hlt
    · subst hEq
      exact getD_set_self _ _ _ (by rw [setLoop_length]; exact hlen)
    · rw [getD_set_ne _ _ _ _ (fun hc => absurd (hinj m i hc) (by omega))]
      exact ih hlt

theorem enqueueArray_data (arr : CircularArray) (vals : List ℚ) (num : ℕ) :
    (arr.enqueueArray vals num).data =
      setLoop
        (setLoop arr.data (fun i => arr.start + i)
          (fun i => vals.getD (num - min num arr.data.length + i) 0)
          (min (min num arr.data.length) (arr.data.length - arr.start)))
        (fun i => i)
        (fun i => vals.getD (num - min num arr.data.length
          + min (min num arr.data.length) (arr.data.length - arr.start) + i) 0)
        (min num arr.data.length
          - min (min num arr.data.length) (arr.data.length - arr.start)) := rfl

theorem enqueueArray_length (arr : CircularArray) (vals : List ℚ) (num : ℕ) :
    (arr.enqueueArray vals num).data.length = arr.data.length := by
  rw [enqueueArray_data, setLoop_length, setLoop_length]

theorem enqueueArray_start (arr : CircularArray) (vals : List ℚ) (num : ℕ) :
    (arr.enqueueArray vals num).start
      = (cmod ((arr.start : ℤ) + ((min num arr.data.length : ℕ) : ℤ))
          ((arr.data.length : ℕ) : ℤ)).toNat := rfl

theorem enqueueArray_data_getD (arr : CircularArray) (vals : List ℚ) (num p : ℕ)
    (hp : p < arr.data.length) :
    (arr.enqueueArray vals num).data.getD p 0 =
      if p < min num arr.data.length
          - min (min num arr.data.length) (arr.data.length - arr.start) then
        vals.getD (num - min num arr.data.length
          + min (min num arr.data.length) (arr.data.length - arr.start) + p) 0
      else if arr.start ≤ p
          ∧ p < arr.start + min (min num arr.data.length) (arr.data.length - arr.start) then
        vals.getD (num - min num arr.data.length + (p - arr.start)) 0
      else arr.data.getD p 0 := by
  rw [enqueueArray_data]
  by_cases h1 : p < min num arr.data.length
      - min (min num arr.data.length) (arr.data.length - arr.start)
  · rw [if_pos h1]
    have := setLoop_getD_eq
      (setLoop arr.data (fun i => arr.start + i)
        (fun i => vals.getD (num - min num arr.data.length + i) 0)
        (min (min num arr.data.length) (arr.data.length - arr.start)))
      (fun i => i)
      (fun i => vals.getD (num - min num arr.data.length
        + min (min num arr.data.length) (arr.data.length - arr.start) + i) 0)
      (min num arr.data.length
        - min (min num arr.data.length) (arr.data.length - arr.start))
      p h1 (fun a b h => h) (by rw [setLoop_length]; exact hp)
    simpa using this
  · rw [if_neg h1]
    rw [setLoop_getD_of_ne _ _ _ _ p (fun i hi hc => by omega)]
    by_cases h2 : arr.start ≤ p
        ∧ p < arr.start + min (min num arr.data.length) (arr.data.length - arr.start)
    · rw [if_pos h2]
      have he := setLoop_getD_eq arr.data (fun i => arr.start + i)
        (fun i => vals.getD (num - min num arr.data.length + i) 0)
        (min (min num arr.data.length) (arr.data.length - arr.start))
        (p - arr.start) (by omega) (fun a b h => by simp only at h; omega)
        (by simp only; omega)
      simp only at he
      conv_lhs => rw [show p = arr.start + (p - arr.start) by omega]
      exact he
    · rw [if_neg h2]
      exact setLoop_getD_of_ne _ _ _ _ p (fun i hi hc => by omega)

theorem emod_shift_cases {x L : ℤ} (hL : 0 < L) (hlo : -L ≤ x) (hhi : x < 2 * L) :
    x % L = if x < 0 then x + L else if x < L then x else x - L := by
  split
  · rw [← Int.add_emod_self]
    exact Int.emod_eq_of_lt (by omega) (by omega)
  · split
    · exact Int.emod_eq_of_lt (by omega) (by omega)
    · have h3 : (x - L) % L = x % L := by
        conv_rhs => rw [show x = (x - L) + L by ring]
        rw [Int.add_emod_self]
      rw [← h3]
      exact Int.emod_eq_of_lt (by omega) (by omega)

theorem enqueueArray_get (arr : CircularArray) (vals : List ℚ) (num : ℕ)
    (hL : 0 < arr.data.length) (hs : arr.start < arr.data.length)
    (j : ℤ) (hj1 : -(arr.data.length : ℤ) ≤ j) (hj2 : j < 0) :
    (arr.enqueueArray vals num).get j =
      if 0 ≤ (num : ℤ) + j then vals.getD ((num : ℤ) + j).toNat 0
      else arr.get ((num : ℤ) + j) := by
  have hlen2 := enqueueArray_length arr vals num
  have hstart2 := enqueueArray_start arr vals num
  unfold CircularArray.get
  rw [hlen2, hstart2, if_pos hL, if_pos hL]
  have hncast : (((min num arr.data.length : ℕ) : ℤ)) = min (num : ℤ) (arr.data.length : ℤ) := by
    omega
  -- the start of the enqueued ring, as an integer
  have hst0 : 0 ≤ cmod ((arr.start : ℤ) + ((min num arr.data.length : ℕ) : ℤ))
      ((arr.data.length : ℕ) : ℤ) := cmod_nonneg _ _ (by omega)
  have hstv : ((cmod ((arr.start : ℤ) + ((min num arr.data.length : ℕ) : ℤ))
      ((arr.data.length : ℕ) : ℤ)).toNat : ℤ)
      = ((arr.start : ℤ) + ((min num arr.data.length : ℕ) : ℤ)) % (arr.data.length : ℤ) := by
    rw [Int.toNat_of_nonneg hst0, cmod_eq_emod _ _ (by omega)]
  -- the linear lookup position inside the ring
  have hq : cmod (((cmod ((arr.start : ℤ) + ((min num arr.data.length : ℕ) : ℤ))
        ((arr.data.length : ℕ) : ℤ)).toNat : ℤ) + j) ((arr.data.length : ℕ) : ℤ)
      = ((arr.start : ℤ) + ((min num arr.data.length : ℕ) : ℤ) + j) % (arr.data.length : ℤ) := by
    rw [hstv, cmod_eq_emod _ _ (by omega), Int.emod_add_emod]
  rw [hq]
  set L : ℕ := arr.data.length with hLdef
  set st : ℕ := arr.start with hstdef
  set n : ℕ := min num L with hndef
  have hnL : n ≤ L := by omega
  have hnum : n ≤ num := by omega
  set t : ℤ := (st : ℤ) + (n : ℤ) + j with htdef
  have htv : t % (L : ℤ) = if t < 0 then t + L else if t < (L : ℤ) then t else t - L :=
    @emod_shift_cases t (L : ℤ) (by omega) (by omega) (by omega)
  set nF : ℕ := min n (L - st) with hnFdef
  set nS : ℕ := n - nF with hnSdef
  have hdg : ∀ p : ℕ, p < L → (arr.enqueueArray vals num).data.getD p 0 =
      if p < nS then vals.getD (num - n + nF + p) 0
      else if st ≤ p ∧ p < st + nF then vals.getD (num - n + (p - st)) 0
      else arr.data.getD p 0 := by
    intro p hp
    exact enqueueArray_data_getD arr vals num p hp
  rw [htv]
  by_cases hcase : 0 ≤ (num : ℤ) + j
  · rw [if_pos hcase]
    have hnj : 0 ≤ (n : ℤ) + j := by omega
    by_cases hA : (n : ℤ) + j < (nF : ℤ)
    · -- lands in the first segment, at linear index st + (n + j)
      have ht1 : ¬ t < 0 := by omega
      have ht2 : t < (L : ℤ) := by omega
      rw [if_neg ht1, if_pos ht2]
      rw [hdg t.toNat (by omega)]
      rw [if_neg (by omega), if_pos (by omega)]
      congr 1
      omega
    · -- wraps: lands at linear index n + j - nF, written by the second loop
      have ht1 : ¬ t < 0 := by omega
      have ht2 : ¬ t < (L : ℤ) := by omega
      rw [if_neg ht1, if_neg ht2]
      rw [hdg (t - L).toNat (by omega)]
      rw [if_pos (by omega)]
      congr 1
      omega
  · rw [if_neg hcase]
    have hnn : n = num := by omega
    have hnj : (n : ℤ) + j < 0 := by omega
    have hrhs : cmod ((st : ℤ) + ((num : ℤ) + j)) ((L : ℕ) : ℤ)
        = t % (L : ℤ) := by
      rw [cmod_eq_emod _ _ (by omega)]
      congr 1
      omega
    rw [hrhs, htv]
    by_cases hB : t < 0
    · rw [if_pos hB]
      rw [hdg (t + L).toNat (by omega)]
      rw [if_neg (by omega), if_neg (by omega)]
    · rw [if_neg hB]
      have ht2 : t < (L : ℤ) := by omega
      rw [if_pos ht2]
      rw [hdg t.toNat (by omega)]
      rw [if_neg (by omega), if_neg (by omega)]

/-- Number of indices `a, a + 1, ..., a + k - 1` at which the accessed
input value strictly exceeds the accessed threshold (the "value > threshold"
test of the voting-counter updates). -/
def countAbove (inp thr : ℤ → ℚ) (a : ℤ) : ℕ → ℕ
  | 0 => 0
  | k + 1 => countAbove inp thr a k + (if thr (a + k) < inp (a + k) then 1 else 0)

theorem countAbove_zero (inp thr : ℤ → ℚ) (a : ℤ) : countAbove inp thr a 0 = 0 := rfl

theorem countAbove_succ (inp thr : ℤ → ℚ) (a : ℤ) (k : ℕ) :
    countAbove inp thr a (k + 1)
      = countAbove inp thr a k + (if thr (a + k) < inp (a + k) then 1 else 0) := rfl

theorem countAbove_congr (inp thr inp' thr' : ℤ → ℚ) (a : ℤ) (k : ℕ)
    (h : ∀ m : ℕ, m < k → inp (a + m) = inp' (a + m) ∧ thr (a + m) = thr' (a + m)) :
    countAbove inp thr a k = countAbove inp' thr' a k := by
  induction k with
  | zero => rfl
  | succ m ih =>
    rw [countAbove_succ, countAbove_succ, ih (fun q hq => h q (by omega)),
      (h m (by omega)).1, (h m (by omega)).2]

theorem countAbove_succ_left (inp thr : ℤ → ℚ) (a : ℤ) (k : ℕ) :
    countAbove inp thr a (k + 1)
      = (if thr a < inp a then 1 else 0) + countAbove inp thr (a + 1) k := by
  induction k with
  | zero =>
    rw [countAbove_succ, countAbove_zero, countAbove_zero]
    simp
  | succ m ih =>
    rw [countAbove_succ, ih, countAbove_succ]
    have h1 : ((m + 1 : ℕ) : ℤ) = (m : ℤ) + 1 := by push_cast; ring
    have h2 : a + ((m : ℤ) + 1) = a + 1 + (m : ℤ) := by ring
    rw [h1, h2]
    ring

theorem countAbove_shift (inp thr : ℤ → ℚ) (a : ℤ) (k : ℕ) :
    countAbove inp thr a k + (if thr (a + k) < inp (a + k) then 1 else 0)
      = (if thr a < inp a then 1 else 0) + countAbove inp thr (a + 1) k := by
  rw [← countAbove_succ, countAbove_succ_left]

theorem countAbove_comp_add (inp thr : ℤ → ℚ) (a off : ℤ) (k : ℕ) :
    countAbove (fun x => inp (off + x)) (fun x => thr (off + x)) a k
      = countAbove inp thr (off + a) k := by
  induction k with
  | zero => rfl
  | succ m ih =>
    rw [countAbove_succ, countAbove_succ, ih]
    have h2 : off + (a + (m : ℤ)) = off + a + (m : ℤ) := by ring
    rw [h2]

theorem evaluateCandidate_pastSamplesAbove (P : Params) (b : ℕ) (ts : ℤ) (n : ℕ)
    (inp thr : ℤ → ℚ) (c : ℤ) (s : LoopState) :
    (evaluateCandidate P b ts n inp thr c s).pastSamplesAbove = s.pastSamplesAbove := by
  dsimp only [evaluateCandidate]
  repeat' split
  all_goals rfl

theorem evaluateCandidate_futureSamplesAbove (P : Params) (b : ℕ) (ts : ℤ) (n : ℕ)
    (inp thr : ℤ → ℚ) (c : ℤ) (s : LoopState) :
    (evaluateCandidate P b ts n inp thr c s).futureSamplesAbove = s.futureSamplesAbove := by
  dsimp only [evaluateCandidate]
  repeat' split
  all_goals rfl

theorem processSample_pastSamplesAbove (P : Params) (b : ℕ) (ts : ℤ) (n : ℕ)
    (inp thr : ℤ → ℚ) (i : ℕ) (s : LoopState) :
    (processSample P b ts n inp thr i s).pastSamplesAbove =
      (votingUpdate P inp thr ((i : ℤ) - (P.futureSpan : ℤ))
        s.pastSamplesAbove s.futureSamplesAbove).1 := by
  dsimp only [processSample]
  split
  · rfl
  · rw [evaluateCandidate_pastSamplesAbove]

theorem processSample_futureSamplesAbove (P : Params) (b : ℕ) (ts : ℤ) (n : ℕ)
    (inp thr : ℤ → ℚ) (i : ℕ) (s : LoopState) :
    (processSample P b ts n inp thr i s).futureSamplesAbove =
      (votingUpdate P inp thr ((i : ℤ) - (P.futureSpan : ℤ))
        s.pastSamplesAbove s.futureSamplesAbove).2 := by
  dsimp only [processSample]
  split
  · rfl
  · rw [evaluateCandidate_futureSamplesAbove]

theorem processSamples_zero (P : Params) (b : ℕ) (ts : ℤ) (n : ℕ)
    (inp thr : ℤ → ℚ) (s : LoopState) : processSamples P b ts n inp thr 0 s = s := rfl

theorem processSamples_succ (P : Params) (b : ℕ) (ts : ℤ) (n : ℕ)
    (inp thr : ℤ → ℚ) (k : ℕ) (s : LoopState) :
    processSamples P b ts n inp thr (k + 1) s
      = processSample P b ts n inp thr k (processSamples P b ts n inp thr k s) := rfl

/-- In-buffer invariant: after the loop has processed samples `0 .. k-1`,
both voting counters equal the exact window counts around the candidate
crossing of the last processed sample. -/
theorem loop_counters (P : Params) (b : ℕ) (ts : ℤ) (n : ℕ) (inp thr : ℤ → ℚ)
    (ls0 : LoopState)
    (hpa0 : ls0.pastSamplesAbove
      = countAbove inp thr ((0 : ℤ) - 1 - (P.futureSpan : ℤ) - 1 - (P.pastSpan : ℤ))
          P.pastSpan)
    (hfa0 : ls0.futureSamplesAbove
      = countAbove inp thr ((0 : ℤ) - 1 - (P.futureSpan : ℤ) + 1) P.futureSpan)
    (k : ℕ) :
    (processSamples P b ts n inp thr k ls0).pastSamplesAbove
      = countAbove inp thr ((k : ℤ) - 1 - (P.futureSpan : ℤ) - 1 - (P.pastSpan : ℤ))
          P.pastSpan
    ∧ (processSamples P b ts n inp thr k ls0).futureSamplesAbove
      = countAbove inp thr ((k : ℤ) - 1 - (P.futureSpan : ℤ) + 1) P.futureSpan := by
  induction k with
  | zero => exact ⟨hpa0, hfa0⟩
  | succ m ih =>
    rw [processSamples_succ]
    constructor
    · rw [processSample_pastSamplesAbove]
      dsimp only [votingUpdate]
      by_cases hps : 0 < P.pastSpan
      · rw [if_pos hps, ih.1]
        have hsh := countAbove_shift inp thr
          ((m : ℤ) - 1 - (P.futureSpan : ℤ) - 1 - (P.pastSpan : ℤ)) P.pastSpan
        have hshz := congrArg (Nat.cast : ℕ → ℤ) hsh
        push_cast at hshz
        push_cast
        ring_nf at hshz ⊢
        linarith [hshz]
      · rw [if_neg hps]
        have hz : P.pastSpan = 0 := by omega
        rw [ih.1, hz, countAbove_zero, countAbove_zero]
    · rw [processSample_futureSamplesAbove]
      dsimp only [votingUpdate]
      by_cases hfs : 0 < P.futureSpan
      · rw [if_pos hfs, ih.2]
        have hsh := countAbove_shift inp thr
          ((m : ℤ) - 1 - (P.futureSpan : ℤ) + 1) P.futureSpan
        have hshz := congrArg (Nat.cast : ℕ → ℤ) hsh
        push_cast at hshz
        push_cast
        ring_nf at hshz ⊢
        linarith [hshz]
      · rw [if_neg hfs]
        have hz : P.futureSpan = 0 := by omega
        rw [ih.2, hz, countAbove_zero, countAbove_zero]

theorem countAbove_of_none (inp thr : ℤ → ℚ) (a : ℤ) (k : ℕ)
    (h : ∀ x : ℤ, ¬ thr x < inp x) : countAbove inp thr a k = 0 := by
  induction k with
  | zero => rfl
  | succ m ih => rw [countAbove_succ, ih, if_neg (h _)]

/-- Reading only histories agrees with reading histories plus a current
buffer on an all-negative index window. -/
theorem countAbove_neg_window (H T : CircularArray) (rp rpT : List ℚ)
    (a : ℤ) (k : ℕ) (hhi : a + k ≤ 0) :
    countAbove (inputAt H rp) (inputAt T rpT) a k
      = countAbove (inputAt H []) (inputAt T []) a k := by
  apply countAbove_congr
  intro m hm
  have hneg : a + m < 0 := by omega
  constructor
  · unfold inputAt
    rw [if_pos hneg, if_pos hneg]
  · unfold inputAt
    rw [if_pos hneg, if_pos hneg]

/-- After `enqueueArray`, a window count read from the histories alone
equals the count over the pre-enqueue accessors shifted by the buffer
length. -/
theorem countAbove_after_enqueue (H T : CircularArray) (rp rpT : List ℚ) (n : ℕ)
    (W : ℕ) (hW : 0 < W)
    (hHlen : H.data.length = W) (hHs : H.start < W)
    (hTlen : T.data.length = W) (hTs : T.start < W)
    (a : ℤ) (k : ℕ) (hlo : -(W : ℤ) ≤ a) (hhi : a + k ≤ 0) :
    countAbove (inputAt (H.enqueueArray rp n) []) (inputAt (T.enqueueArray rpT n) []) a k
      = countAbove (inputAt H rp) (inputAt T rpT) ((n : ℤ) + a) k := by
  rw [← countAbove_comp_add]
  apply countAbove_congr
  intro m hm
  have hneg : a + m < 0 := by omega
  have hjlo : -(W : ℤ) ≤ a + m := by omega
  constructor
  · have hchar := enqueueArray_get H rp n (by omega : 0 < H.data.length) (by omega)
      (a + m) (by omega) hneg
    show inputAt (H.enqueueArray rp n) [] (a + m) = inputAt H rp ((n : ℤ) + (a + m))
    unfold inputAt
    rw [if_pos hneg, hchar]
    by_cases hc : 0 ≤ (n : ℤ) + (a + m)
    · rw [if_pos hc, if_neg (by omega)]
    · rw [if_neg hc, if_pos (by omega)]
  · have hchar := enqueueArray_get T rpT n (by omega : 0 < T.data.length) (by omega)
      (a + m) (by omega) hneg
    show inputAt (T.enqueueArray rpT n) [] (a + m) = inputAt T rpT ((n : ℤ) + (a + m))
    unfold inputAt
    rw [if_pos hneg, hchar]
    by_cases hc : 0 ≤ (n : ℤ) + (a + m)
    · rw [if_pos hc, if_neg (by omega)]
    · rw [if_neg hc, if_pos (by omega)]

theorem initLoopState_fields (b : ℕ) (ts : ℤ) (n : ℕ) (s : DetectorState) :
    (initLoopState b ts n s).pastSamplesAbove = s.pastSamplesAbove
    ∧ (initLoopState b ts n s).futureSamplesAbove = s.futureSamplesAbove
    ∧ (initLoopState b ts n s).sampToReenable = s.sampToReenable
    ∧ (initLoopState b ts n s).jumpLimitElapsed = s.jumpLimitElapsed := by
  unfold initLoopState
  rcases s.turnoffEvent with - | pe
  · exact ⟨rfl, rfl, rfl, rfl⟩
  · dsimp only
    split
    · exact ⟨rfl, rfl, rfl, rfl⟩
    · exact ⟨rfl, rfl, rfl, rfl⟩

theorem processBuffer_fst (P : Params) (b : ℕ) (ts : ℤ) (buf : List (ℚ × ℚ))
    (s : DetectorState) :
    (processBuffer P b ts buf s).1 =
      { pastSamplesAbove := (processSamples P b ts buf.length
          (inputAt s.inputHistory (buf.map Prod.fst))
          (inputAt s.thresholdHistory (buf.map Prod.snd)) buf.length
          (initLoopState b ts buf.length s)).pastSamplesAbove
        futureSamplesAbove := (processSamples P b ts buf.length
          (inputAt s.inputHistory (buf.map Prod.fst))
          (inputAt s.thresholdHistory (buf.map Prod.snd)) buf.length
          (initLoopState b ts buf.length s)).futureSamplesAbove
        sampToReenable := max 0 ((processSamples P b ts buf.length
          (inputAt s.inputHistory (buf.map Prod.fst))
          (inputAt s.thresholdHistory (buf.map Prod.snd)) buf.length
          (initLoopState b ts buf.length s)).sampToReenable - (buf.length : ℤ))
        jumpLimitElapsed := (processSamples P b ts buf.length
          (inputAt s.inputHistory (buf.map Prod.fst))
          (inputAt s.thresholdHistory (buf.map Prod.snd)) buf.length
          (initLoopState b ts buf.length s)).jumpLimitElapsed
        inputHistory := s.inputHistory.enqueueArray (buf.map Prod.fst) buf.length
        thresholdHistory := s.thresholdHistory.enqueueArray (buf.map Prod.snd) buf.length
        turnoffEvent := (processSamples P b ts buf.length
          (inputAt s.inputHistory (buf.map Prod.fst))
          (inputAt s.thresholdHistory (buf.map Prod.snd)) buf.length
          (initLoopState b ts buf.length s)).turnoffEvent } := rfl

/-- The reachability invariant for claim C2: well-formed history rings of
capacity `pastSpan + futureSpan + 2`, and both voting counters equal to the
window counts around the candidate crossing `-1 - futureSpan` that the next
buffer will start from. -/
def DetectorInv (P : Params) (s : DetectorState) : Prop :=
  s.inputHistory.data.length = P.pastSpan + P.futureSpan + 2
  ∧ s.thresholdHistory.data.length = P.pastSpan + P.futureSpan + 2
  ∧ s.inputHistory.start < P.pastSpan + P.futureSpan + 2
  ∧ s.thresholdHistory.start < P.pastSpan + P.futureSpan + 2
  ∧ s.pastSamplesAbove = countAbove (inputAt s.inputHistory []) (inputAt s.thresholdHistory [])
      ((0 : ℤ) - 1 - (P.futureSpan : ℤ) - 1 - (P.pastSpan : ℤ)) P.pastSpan
  ∧ s.futureSamplesAbove = countAbove (inputAt s.inputHistory []) (inputAt s.thresholdHistory [])
      ((0 : ℤ) - 1 - (P.futureSpan : ℤ) + 1) P.futureSpan

theorem initState_inv (P : Params) : DetectorInv P (initState P) := by
  have hz : ∀ x : ℤ, ¬ ((inputAt (CircularArray.ofLength (P.pastSpan + P.futureSpan + 2)) []) x
      < (inputAt (CircularArray.ofLength (P.pastSpan + P.futureSpan + 2)) []) x) := by
    intro x
    unfold inputAt CircularArray.ofLength
    split
    · rw [get_replicate_zero]
      exact lt_irrefl 0
    · simp
  unfold DetectorInv initState
  refine ⟨?_, ?_, ?_, ?_, ?_, ?_⟩
  · show (List.replicate (P.pastSpan + P.futureSpan + 2) (0 : ℚ)).length = _
    simp
  · show (List.replicate (P.pastSpan + P.futureSpan + 2) (0 : ℚ)).length = _
    simp
  · show 0 < P.pastSpan + P.futureSpan + 2
    omega
  · show 0 < P.pastSpan + P.futureSpan + 2
    omega
  · show (0 : ℤ) = _
    rw [countAbove_of_none _ _ _ _ hz]
    rfl
  · show (0 : ℤ) = _
    rw [countAbove_of_none _ _ _ _ hz]
    rfl

theorem processBuffer_inv (P : Params) (b : ℕ) (ts : ℤ) (buf : List (ℚ × ℚ))
    (s : DetectorState) (h : DetectorInv P s) :
    DetectorInv P (processBuffer P b ts buf s).1 := by
  obtain ⟨h1, h2, h3, h4, h5, h6⟩ := h
  have hW : 0 < P.pastSpan + P.futureSpan + 2 := by omega
  rw [processBuffer_fst]
  set n := buf.length with hn
  set rp := buf.map Prod.fst with hrp
  set rpT := buf.map Prod.snd with hrpT
  set inp := inputAt s.inputHistory rp with hinp
  set thr := inputAt s.thresholdHistory rpT with hthr
  have hls := loop_counters P b ts n inp thr (initLoopState b ts n s)
    (by rw [(initLoopState_fields b ts n s).1, h5, hinp, hthr,
            countAbove_neg_window s.inputHistory s.thresholdHistory rp rpT _ _ (by omega)])
    (by rw [(initLoopState_fields b ts n s).2.1, h6, hinp, hthr,
            countAbove_neg_window s.inputHistory s.thresholdHistory rp rpT _ _ (by omega)])
    n
  refine ⟨?_, ?_, ?_, ?_, ?_, ?_⟩
  · show (s.inputHistory.enqueueArray rp n).data.length = _
    rw [enqueueArray_length, h1]
  · show (s.thresholdHistory.enqueueArray rpT n).data.length = _
    rw [enqueueArray_length, h2]
  · show (s.inputHistory.enqueueArray rp n).start < _
    rw [enqueueArray_start]
    have := cmod_lt ((s.inputHistory.start : ℤ) + ((min n s.inputHistory.data.length : ℕ) : ℤ))
      ((s.inputHistory.data.length : ℕ) : ℤ) (by omega)
    omega
  · show (s.thresholdHistory.enqueueArray rpT n).start < _
    rw [enqueueArray_start]
    have := cmod_lt ((s.thresholdHistory.start : ℤ) + ((min n s.thresholdHistory.data.length : ℕ) : ℤ))
      ((s.thresholdHistory.data.length : ℕ) : ℤ) (by omega)
    omega
  · show (processSamples P b ts n inp thr n (initLoopState b ts n s)).pastSamplesAbove = _
    rw [hls.1]
    rw [countAbove_after_enqueue s.inputHistory s.thresholdHistory rp rpT n
      (P.pastSpan + P.futureSpan + 2) hW h1 h3 h2 h4 _ _ (by push_cast; omega) (by push_cast; omega)]
    congr 1
    push_cast
    ring
  · show (processSamples P b ts n inp thr n (initLoopState b ts n s)).futureSamplesAbove = _
    rw [hls.2]
    rw [countAbove_after_enqueue s.inputHistory s.thresholdHistory rp rpT n
      (P.pastSpan + P.futureSpan + 2) hW h1 h3 h2 h4 _ _ (by push_cast; omega) (by push_cast; omega)]
    congr 1
    push_cast
    ring

theorem runFrom_inv (P : Params) (bufs : List (List (ℚ × ℚ))) : ∀ (b : ℕ) (ts : ℤ)
    (s : DetectorState), DetectorInv P s → DetectorInv P (runFrom P b ts s bufs).1 := by
  induction bufs with
  | nil => intro b ts s h; exact h
  | cons buf rest ih =>
    intro b ts s h
    exact ih (b + 1) (ts + buf.length) (processBuffer P b ts buf s).1
      (processBuffer_inv P b ts buf s h)

/-- Claim C2: for every reachable state (any run from acquisition start)
and every processed sample `i` of the next buffer, after the incremental
voting update for `i` the counter `pastSamplesAbove` equals the exact count
of indices in the window `[c - 1 - pastSpan, c - 2]` around the candidate
crossing `c = i - futureSpan` whose accessed value exceeds the accessed
threshold, and `futureSamplesAbove` the count over `[c + 1, c + futureSpan]`,
where the accessors read the history rings at negative indices and the
current buffer otherwise.  The update runs on every sample regardless of
warm-up or refractory state, which is why the invariant holds at every `i`. -/
theorem C2_voting_invariant (P : Params) (ts0 : ℤ) (bufs : List (List (ℚ × ℚ)))
    (bufIdx : ℕ) (startTs : ℤ) (buf : List (ℚ × ℚ)) (i : ℕ) (hi : i < buf.length) :
    (processSamples P bufIdx startTs buf.length
        (inputAt (runFrom P 0 ts0 (initState P) bufs).1.inputHistory (buf.map Prod.fst))
        (inputAt (runFrom P 0 ts0 (initState P) bufs).1.thresholdHistory (buf.map Prod.snd))
        (i + 1)
        (initLoopState bufIdx startTs buf.length
          (runFrom P 0 ts0 (initState P) bufs).1)).pastSamplesAbove
      = countAbove
        (inputAt (runFrom P 0 ts0 (initState P) bufs).1.inputHistory (buf.map Prod.fst))
        (inputAt (runFrom P 0 ts0 (initState P) bufs).1.thresholdHistory (buf.map Prod.snd))
        ((i : ℤ) - (P.futureSpan : ℤ) - 1 - (P.pastSpan : ℤ)) P.pastSpan
    ∧ (processSamples P bufIdx startTs buf.length
        (inputAt (runFrom P 0 ts0 (initState P) bufs).1.inputHistory (buf.map Prod.fst))
        (inputAt (runFrom P 0 ts0 (initState P) bufs).1.thresholdHistory (buf.map Prod.snd))
        (i + 1)
        (initLoopState bufIdx startTs buf.length
          (runFrom P 0 ts0 (initState P) bufs).1)).futureSamplesAbove
      = countAbove
        (inputAt (runFrom P 0 ts0 (initState P) bufs).1.inputHistory (buf.map Prod.fst))
        (inputAt (runFrom P 0 ts0 (initState P) bufs).1.thresholdHistory (buf.map Prod.snd))
        ((i : ℤ) - (P.futureSpan : ℤ) + 1) P.futureSpan := by
  obtain ⟨h1, h2, h3, h4, h5, h6⟩ := runFrom_inv P bufs 0 ts0 (initState P) (initState_inv P)
  set s := (runFrom P 0 ts0 (initState P) bufs).1
  set rp := buf.map Prod.fst
  set rpT := buf.map Prod.snd
  have hls := loop_counters P bufIdx startTs buf.length
    (inputAt s.inputHistory rp) (inputAt s.thresholdHistory rpT)
    (initLoopState bufIdx startTs buf.length s)
    (by rw [(initLoopState_fields bufIdx startTs buf.length s).1, h5,
            countAbove_neg_window s.inputHistory s.thresholdHistory rp rpT _ _ (by omega)])
    (by rw [(initLoopState_fields bufIdx startTs buf.length s).2.1, h6,
            countAbove_neg_window s.inputHistory s.thresholdHistory rp rpT _ _ (by omega)])
    (i + 1)
  constructor
  · rw [hls.1]
    congr 1
    push_cast
    ring
  · rw [hls.2]
    congr 1
    push_cast
    ring

theorem C2_voting_invariant_witness :
    (0 : ℕ) < [((1 : ℚ), (0 : ℚ))].length
    ∧ ((processSamples ⟨true, false, 0, 0, 1, 1, false, 5, 0, 1, false, 0, 0, 0⟩ 0 0
        [((1 : ℚ), (0 : ℚ))].length
        (inputAt (runFrom ⟨true, false, 0, 0, 1, 1, false, 5, 0, 1, false, 0, 0, 0⟩ 0 0
          (initState ⟨true, false, 0, 0, 1, 1, false, 5, 0, 1, false, 0, 0, 0⟩)
          []).1.inputHistory ([((1 : ℚ), (0 : ℚ))].map Prod.fst))
        (inputAt (runFrom ⟨true, false, 0, 0, 1, 1, false, 5, 0, 1, false, 0, 0, 0⟩ 0 0
          (initState ⟨true, false, 0, 0, 1, 1, false, 5, 0, 1, false, 0, 0, 0⟩)
          []).1.thresholdHistory ([((1 : ℚ), (0 : ℚ))].map Prod.snd))
        (0 + 1)
        (initLoopState 0 0 [((1 : ℚ), (0 : ℚ))].length
          (runFrom ⟨true, false, 0, 0, 1, 1, false, 5, 0, 1, false, 0, 0, 0⟩ 0 0
            (initState ⟨true, false, 0, 0, 1, 1, false, 5, 0, 1, false, 0, 0, 0⟩)
            []).1)).pastSamplesAbove
      = countAbove
        (inputAt (runFrom ⟨true, false, 0, 0, 1, 1, false, 5, 0, 1, false, 0, 0, 0⟩ 0 0
          (initState ⟨true, false, 0, 0, 1, 1, false, 5, 0, 1, false, 0, 0, 0⟩)
          []).1.inputHistory ([((1 : ℚ), (0 : ℚ))].map Prod.fst))
        (inputAt (runFrom ⟨true, false, 0, 0, 1, 1, false, 5, 0, 1, false, 0, 0, 0⟩ 0 0
          (initState ⟨true, false, 0, 0, 1, 1, false, 5, 0, 1, false, 0, 0, 0⟩)
          []).1.thresholdHistory ([((1 : ℚ), (0 : ℚ))].map Prod.snd))
        ((0 : ℤ) - ((0 : ℕ) : ℤ) - 1 - ((0 : ℕ) : ℤ)) 0
    ∧ (processSamples ⟨true, false, 0, 0, 1, 1, false, 5, 0, 1, false, 0, 0, 0⟩ 0 0
        [((1 : ℚ), (0 : ℚ))].length
        (inputAt (runFrom ⟨true, false, 0, 0, 1, 1, false, 5, 0, 1, false, 0, 0, 0⟩ 0 0
          (initState ⟨true, false, 0, 0, 1, 1, false, 5, 0, 1, false, 0, 0, 0⟩)
          []).1.inputHistory ([((1 : ℚ), (0 : ℚ))].map Prod.fst))
        (inputAt (runFrom ⟨true, false, 0, 0, 1, 1, false, 5, 0, 1, false, 0, 0, 0⟩ 0 0
          (initState ⟨true, false, 0, 0, 1, 1, false, 5, 0, 1, false, 0, 0, 0⟩)
          []).1.thresholdHistory ([((1 : ℚ), (0 : ℚ))].map Prod.snd))
        (0 + 1)
        (initLoopState 0 0 [((1 : ℚ), (0 : ℚ))].length
          (runFrom ⟨true, false, 0, 0, 1, 1, false, 5, 0, 1, false, 0, 0, 0⟩ 0 0
            (initState ⟨true, false, 0, 0, 1, 1, false, 5, 0, 1, false, 0, 0, 0⟩)
            []).1)).futureSamplesAbove
      = countAbove
        (inputAt (runFrom ⟨true, false, 0, 0, 1, 1, false, 5, 0, 1, false, 0, 0, 0⟩ 0 0
          (initState ⟨true, false, 0, 0, 1, 1, false, 5, 0, 1, false, 0, 0, 0⟩)
          []).1.inputHistory ([((1 : ℚ), (0 : ℚ))].map Prod.fst))
        (inputAt (runFrom ⟨true, false, 0, 0, 1, 1, false, 5, 0, 1, false, 0, 0, 0⟩ 0 0
          (initState ⟨true, false, 0, 0, 1, 1, false, 5, 0, 1, false, 0, 0, 0⟩)
          []).1.thresholdHistory ([((1 : ℚ), (0 : ℚ))].map Prod.snd))
        ((0 : ℤ) - ((0 : ℕ) : ℤ) + 1) 0) :=
  ⟨by norm_num,
   C2_voting_invariant ⟨true, false, 0, 0, 1, 1, false, 5, 0, 1, false, 0, 0, 0⟩ 0 [] 0 0
     [((1 : ℚ), (0 : ℚ))] 0 (by norm_num)⟩

/-- Claim C1 (amended): with the buffer-end mask enabled, the skip condition
is inverted relative to the claim.  A candidate `c` MORE than
`bufferEndMaskSamp` samples before the buffer end
(`n - c > bufferEndMaskSamp`) is skipped: only the voting counters are
updated and no evaluation or event can happen.  A candidate within the last
`bufferEndMaskSamp` samples (`n - c <= bufferEndMaskSamp`) is processed
exactly as it would be with the mask disabled. -/
theorem C1_amended (P : Params) (bufIdx : ℕ) (startTs : ℤ) (n : ℕ)
    (inp thr : ℤ → ℚ) (i : ℕ) (s : LoopState)
    (hmask : P.useBufferEndMask = true) :
    (P.bufferEndMaskSamp < (n : ℤ) - ((i : ℤ) - (P.futureSpan : ℤ)) →
      processSample P bufIdx startTs n inp thr i s
        = { s with
            pastSamplesAbove := (votingUpdate P inp thr ((i : ℤ) - (P.futureSpan : ℤ))
              s.pastSamplesAbove s.futureSamplesAbove).1
            futureSamplesAbove := (votingUpdate P inp thr ((i : ℤ) - (P.futureSpan : ℤ))
              s.pastSamplesAbove s.futureSamplesAbove).2 })
    ∧ ((n : ℤ) - ((i : ℤ) - (P.futureSpan : ℤ)) ≤ P.bufferEndMaskSamp →
      processSample P bufIdx startTs n inp thr i s
        = processSample { P with useBufferEndMask := false } bufIdx startTs n inp thr i s) := by
  constructor
  · intro h
    dsimp only [processSample]
    rw [if_pos (Or.inr ⟨hmask, h⟩)]
  · intro h
    by_cases hre : (i : ℤ) - (P.futureSpan : ℤ) < s.sampToReenable
    · dsimp only [processSample]
      rw [if_pos (Or.inl hre), if_pos (Or.inl hre)]
      rfl
    · dsimp only [processSample]
      rw [if_neg (by push_neg; exact ⟨not_lt.mp hre, fun _ => by omega⟩),
          if_neg (by push_neg; exact ⟨not_lt.mp hre, fun hc => by simp at hc⟩)]
      rfl

set_option maxHeartbeats 4000000 in
/-- Claim C1 (counterexample): with the buffer-end mask enabled
(`bufferEndMaskSamp = 1`), spans `0`, rising detection only, a run of two
buffers `[-1, -1]` then `[-1, 1, -1, 1]` (constant threshold `0`) emits its
only on-event at the candidate of buffer-relative index `3` of the second
buffer (absolute sample `5`), which lies within the last `bufferEndMaskSamp`
samples of that buffer (`4 - 3 <= 1`) - the claim says no event can fire
there.  The rising crossing at candidate index `1` of the same buffer
(`4 - 1 > 1`), which the claim says is still evaluated, fires nothing. -/
theorem C1_counterexample :
    onEvents (runFrom ⟨true, false, 0, 0, 1, 1, false, 5, 0, 1, true, 1, 0, 0⟩ 0 0
      (initState ⟨true, false, 0, 0, 1, 1, false, 5, 0, 1, true, 1, 0, 0⟩)
      [[((-1 : ℚ), (0 : ℚ)), ((-1 : ℚ), (0 : ℚ))],
       [((-1 : ℚ), (0 : ℚ)), ((1 : ℚ), (0 : ℚ)), ((-1 : ℚ), (0 : ℚ)), ((1 : ℚ), (0 : ℚ))]]).2
      = [{ bufIdx := 1, ts := 5, eventState := true, cross := 5 }]
    ∧ ((4 : ℤ) - 3 ≤ 1)
    ∧ ((1 : ℤ) < 4 - 1) := by
  refine ⟨?_, by norm_num, by norm_num⟩
  norm_num [runFrom, processBuffer, processSamples, processSample, evaluateCandidate,
    triggerDecision, votingUpdate, initLoopState, shouldTrigger, inputAt,
    CircularArray.get, CircularArray.enqueueArray, setLoop, cmod, initState,
    CircularArray.ofLength, qtrunc, Int.tmod, List.getD, onEvents, Int.toNat_ofNat,
    show Int.toNat 2 = 2 from rfl, show Int.toNat 3 = 3 from rfl]

theorem C1_amended_witness :
    ((⟨true, false, 0, 0, 1, 1, false, 5, 0, 1, true, 1, 0, 0⟩ : Params).useBufferEndMask = true)
    ∧ ((⟨true, false, 0, 0, 1, 1, false, 5, 0, 1, true, 1, 0, 0⟩ : Params).bufferEndMaskSamp
        < (4 : ℤ) - ((0 : ℤ) - (((⟨true, false, 0, 0, 1, 1, false, 5, 0, 1, true, 1, 0,
            0⟩ : Params).futureSpan : ℕ) : ℤ)))
    ∧ processSample ⟨true, false, 0, 0, 1, 1, false, 5, 0, 1, true, 1, 0, 0⟩ 0 0 4
        (fun _ => 0) (fun _ => 0) 0 ⟨0, 0, 0, 0, none, []⟩
      = { (⟨0, 0, 0, 0, none, []⟩ : LoopState) with
          pastSamplesAbove := (votingUpdate
            ⟨true, false, 0, 0, 1, 1, false, 5, 0, 1, true, 1, 0, 0⟩
            (fun _ => 0) (fun _ => 0) ((0 : ℤ) - ((0 : ℕ) : ℤ)) 0 0).1
          futureSamplesAbove := (votingUpdate
            ⟨true, false, 0, 0, 1, 1, false, 5, 0, 1, true, 1, 0, 0⟩
            (fun _ => 0) (fun _ => 0) ((0 : ℤ) - ((0 : ℕ) : ℤ)) 0 0).2 } :=
  ⟨rfl, by norm_num,
   (C1_amended ⟨true, false, 0, 0, 1, 1, false, 5, 0, 1, true, 1, 0, 0⟩ 0 0 4
     (fun _ => 0) (fun _ => 0) 0 ⟨0, 0, 0, 0, none, []⟩ rfl).1 (by norm_num)⟩

/-- Dichotomy for one sample-loop step: either nothing besides the voting
counters and `jumpLimitElapsed` changes (refractory or masked candidate, or
no trigger), or an on-event fires at the candidate
`c = i - futureSpan >= sampToReenable`, with its off-event either emitted in
the same buffer or stored as the pending turn-off. -/
theorem processSample_step_cases (P : Params) (b : ℕ) (ts : ℤ) (n : ℕ)
    (inp thr : ℤ → ℚ) (i : ℕ) (s : LoopState) :
    ((processSample P b ts n inp thr i s).events = s.events
      ∧ (processSample P b ts n inp thr i s).sampToReenable = s.sampToReenable
      ∧ (processSample P b ts n inp thr i s).turnoffEvent = s.turnoffEvent)
    ∨ (s.sampToReenable ≤ (i : ℤ) - (P.futureSpan : ℤ)
      ∧ (processSample P b ts n inp thr i s).sampToReenable
          = (i : ℤ) - (P.futureSpan : ℤ) + 1 + P.timeoutSamp
      ∧ (((processSample P b ts n inp thr i s).events = s.events
            ++ [{ bufIdx := b, ts := ts + max ((i : ℤ) - (P.futureSpan : ℤ)) 0
                  eventState := true, cross := ts + ((i : ℤ) - (P.futureSpan : ℤ)) },
                { bufIdx := b
                  ts := ts + (max ((i : ℤ) - (P.futureSpan : ℤ)) 0 + P.eventDurationSamp)
                  eventState := false, cross := ts + ((i : ℤ) - (P.futureSpan : ℤ)) }]
          ∧ max ((i : ℤ) - (P.futureSpan : ℤ)) 0 + P.eventDurationSamp ≤ (n : ℤ)
          ∧ (processSample P b ts n inp thr i s).turnoffEvent = s.turnoffEvent)
        ∨ ((processSample P b ts n inp thr i s).events = s.events
            ++ [{ bufIdx := b, ts := ts + max ((i : ℤ) - (P.futureSpan : ℤ)) 0
                  eventState := true, cross := ts + ((i : ℤ) - (P.futureSpan : ℤ)) }]
          ∧ ¬ (max ((i : ℤ) - (P.futureSpan : ℤ)) 0 + P.eventDurationSamp ≤ (n : ℤ))
          ∧ (processSample P b ts n inp thr i s).turnoffEvent
              = some { ts := ts + (max ((i : ℤ) - (P.futureSpan : ℤ)) 0 + P.eventDurationSamp)
                       cross := ts + ((i : ℤ) - (P.futureSpan : ℤ)) }))) := by
  by_cases hskip : (i : ℤ) - (P.futureSpan : ℤ) < s.sampToReenable
      ∨ (P.useBufferEndMask = true ∧ P.bufferEndMaskSamp < (n : ℤ) - ((i : ℤ) - (P.futureSpan : ℤ)))
  · left
    dsimp only [processSample]
    rw [if_pos hskip]
    exact ⟨rfl, rfl, rfl⟩
  · have hre : s.sampToReenable ≤ (i : ℤ) - (P.futureSpan : ℤ) := by
      rcases not_or.mp hskip with ⟨h1, -⟩
      omega
    dsimp only [processSample]
    rw [if_neg hskip]
    dsimp only [evaluateCandidate]
    split
    · split
      · right
        refine ⟨hre, rfl, Or.inl ⟨rfl, by assumption, rfl⟩⟩
      · right
        refine ⟨hre, rfl, Or.inr ⟨rfl, by assumption, rfl⟩⟩
    · left
      exact ⟨rfl, rfl, rfl⟩


/-- The minimum-gap relation enforced by the refractory timeout. -/
def evGap (t : ℤ) (e1 e2 : Ev) : Prop := e1.cross + 1 + t ≤ e2.cross

theorem onEvents_append (l1 l2 : List Ev) :
    onEvents (l1 ++ l2) = onEvents l1 ++ onEvents l2 := by
  simp [onEvents, List.filter_append]

theorem initLoopState_onEvents (b : ℕ) (ts : ℤ) (n : ℕ) (s : DetectorState) :
    onEvents (initLoopState b ts n s).events = [] := by
  unfold initLoopState
  rcases s.turnoffEvent with - | pe
  · rfl
  · dsimp only
    split
    · rfl
    · rfl

theorem loop_timeout (P : Params) (ht : 0 ≤ P.timeoutSamp) (b : ℕ) (ts : ℤ) (n : ℕ)
    (inp thr : ℤ → ℚ) (acc : List Ev) : ∀ (k : ℕ) (ls : LoopState),
    (onEvents (acc ++ ls.events)).Pairwise (evGap P.timeoutSamp) →
    (∀ e ∈ onEvents (acc ++ ls.events),
      e.cross + 1 + P.timeoutSamp ≤ ts + ls.sampToReenable) →
    (onEvents (acc ++ (processSamples P b ts n inp thr k ls).events)).Pairwise
        (evGap P.timeoutSamp)
    ∧ (∀ e ∈ onEvents (acc ++ (processSamples P b ts n inp thr k ls).events),
      e.cross + 1 + P.timeoutSamp
        ≤ ts + (processSamples P b ts n inp thr k ls).sampToReenable) := by
  intro k
  induction k with
  | zero => intro ls h1 h2; exact ⟨h1, h2⟩
  | succ m ih =>
    intro ls h1 h2
    rw [processSamples_succ]
    obtain ⟨ih1, ih2⟩ := ih ls h1 h2
    set L := processSamples P b ts n inp thr m ls with hL
    rcases processSample_step_cases P b ts n inp thr m L with
      ⟨he, hr, -⟩ | ⟨hre, hr, hfired⟩
    · rw [he, hr]
      exact ⟨ih1, ih2⟩
    · have hbound : ∀ e ∈ onEvents (acc ++ L.events),
          e.cross + 1 + P.timeoutSamp ≤ ts + ((m : ℤ) - (P.futureSpan : ℤ)) := by
        intro e he
        have := ih2 e he
        omega
      have honev : ∀ (tail : List Ev),
          (processSample P b ts n inp thr m L).events = L.events ++ tail →
          onEvents tail = [{ bufIdx := b, ts := ts + max ((m : ℤ) - (P.futureSpan : ℤ)) 0
                             eventState := true, cross := ts + ((m : ℤ) - (P.futureSpan : ℤ)) }] →
          (onEvents (acc ++ (processSample P b ts n inp thr m L).events)).Pairwise
              (evGap P.timeoutSamp)
          ∧ (∀ e ∈ onEvents (acc ++ (processSample P b ts n inp thr m L).events),
            e.cross + 1 + P.timeoutSamp
              ≤ ts + (processSample P b ts n inp thr m L).sampToReenable) := by
        intro tail htail hone
        rw [htail, ← List.append_assoc, onEvents_append, hone]
        constructor
        · rw [List.pairwise_append]
          refine ⟨ih1, List.pairwise_singleton _ _, ?_⟩
          intro a ha e' he'
          rw [List.mem_singleton] at he'
          subst he'
          show a.cross + 1 + P.timeoutSamp ≤ ts + ((m : ℤ) - (P.futureSpan : ℤ))
          exact hbound a ha
        · intro e he
          rw [List.mem_append] at he
          rw [hr]
          rcases he with he | he
          · have := hbound e he
            omega
          · rw [List.mem_singleton] at he
            subst he
            show ts + ((m : ℤ) - (P.futureSpan : ℤ)) + 1 + P.timeoutSamp
              ≤ ts + ((m : ℤ) - (P.futureSpan : ℤ) + 1 + P.timeoutSamp)
            omega
      rcases hfired with ⟨he, -, -⟩ | ⟨he, -, -⟩
      · refine honev _ he ?_
        rfl
      · refine honev _ he ?_
        rfl

theorem buffer_timeout (P : Params) (ht : 0 ≤ P.timeoutSamp) (b : ℕ) (ts : ℤ)
    (buf : List (ℚ × ℚ)) (s : DetectorState) (acc : List Ev)
    (h1 : (onEvents acc).Pairwise (evGap P.timeoutSamp))
    (h2 : ∀ e ∈ onEvents acc, e.cross + 1 + P.timeoutSamp ≤ ts + s.sampToReenable) :
    (onEvents (acc ++ (processBuffer P b ts buf s).2)).Pairwise (evGap P.timeoutSamp)
    ∧ (∀ e ∈ onEvents (acc ++ (processBuffer P b ts buf s).2),
      e.cross + 1 + P.timeoutSamp
        ≤ (ts + (buf.length : ℤ)) + (processBuffer P b ts buf s).1.sampToReenable) := by
  have hinit1 : onEvents (acc ++ (initLoopState b ts buf.length s).events)
      = onEvents acc := by
    rw [onEvents_append, initLoopState_onEvents, List.append_nil]
  have hinit2 := (initLoopState_fields b ts buf.length s).2.2.1
  obtain ⟨g1, g2⟩ := loop_timeout P ht b ts buf.length
    (inputAt s.inputHistory (buf.map Prod.fst))
    (inputAt s.thresholdHistory (buf.map Prod.snd)) acc buf.length
    (initLoopState b ts buf.length s)
    (by rw [hinit1]; exact h1)
    (by rw [hinit1, hinit2]; exact h2)
  constructor
  · exact g1
  · intro e he
    have := g2 e he
    have hmax : (processSamples P b ts buf.length
        (inputAt s.inputHistory (buf.map Prod.fst))
        (inputAt s.thresholdHistory (buf.map Prod.snd)) buf.length
        (initLoopState b ts buf.length s)).sampToReenable - (buf.length : ℤ)
        ≤ (processBuffer P b ts buf s).1.sampToReenable := by
      rw [processBuffer_fst]
      exact le_max_right _ _
    omega

theorem runFrom_timeout (P : Params) (ht : 0 ≤ P.timeoutSamp)
    (bufs : List (List (ℚ × ℚ))) : ∀ (b : ℕ) (ts : ℤ) (s : DetectorState) (acc : List Ev),
    (onEvents acc).Pairwise (evGap P.timeoutSamp) →
    (∀ e ∈ onEvents acc, e.cross + 1 + P.timeoutSamp ≤ ts + s.sampToReenable) →
    (onEvents (acc ++ (runFrom P b ts s bufs).2)).Pairwise (evGap P.timeoutSamp) := by
  induction bufs with
  | nil =>
    intro b ts s acc h1 h2
    show (onEvents (acc ++ [])).Pairwise _
    rw [List.append_nil]
    exact h1
  | cons buf rest ih =>
    intro b ts s acc h1 h2
    obtain ⟨g1, g2⟩ := buffer_timeout P ht b ts buf s acc h1 h2
    have := ih (b + 1) (ts + buf.length) (processBuffer P b ts buf s).1
      (acc ++ (processBuffer P b ts buf s).2) g1 g2
    show (onEvents (acc ++ ((processBuffer P b ts buf s).2
      ++ (runFrom P (b + 1) (ts + (buf.length : ℤ)) (processBuffer P b ts buf s).1 rest).2))).Pairwise _
    rw [← List.append_assoc]
    exact this

/-- Claim C5: in any run with a non-negative `timeoutSamp`, after an
on-event fires at absolute candidate index `k`, every later on-event has
absolute candidate index at least `k + 1 + timeoutSamp` - the refractory
counter is carried across buffer boundaries (decremented by each buffer's
length, floored at `0`), so no on-event is emitted at a candidate `k'`
with `k' < k + 1 + timeoutSamp` even if the signal crosses again. -/
theorem C5_timeout (P : Params) (ht : 0 ≤ P.timeoutSamp) (ts0 : ℤ)
    (bufs : List (List (ℚ × ℚ))) :
    (onEvents (runFrom P 0 ts0 (initState P) bufs).2).Pairwise (evGap P.timeoutSamp) := by
  have := runFrom_timeout P ht bufs 0 ts0 (initState P) [] (by simp [onEvents])
    (by intro e he; simp [onEvents] at he)
  rw [List.nil_append] at this
  exact this

theorem C5_timeout_witness :
    (0 : ℤ) ≤ (0 : ℤ)
    ∧ (onEvents (runFrom ⟨true, false, 0, 0, 1, 1, false, 5, 0, 1, false, 0, 0, 0⟩ 0 0
        (initState ⟨true, false, 0, 0, 1, 1, false, 5, 0, 1, false, 0, 0, 0⟩)
        [[((-1 : ℚ), (0 : ℚ)), ((1 : ℚ), (0 : ℚ))]]).2).Pairwise (evGap 0) :=
  ⟨le_refl 0,
   C5_timeout ⟨true, false, 0, 0, 1, 1, false, 5, 0, 1, false, 0, 0, 0⟩ (le_refl 0) 0
     [[((-1 : ℚ), (0 : ℚ)), ((1 : ℚ), (0 : ℚ))]]⟩

theorem processSample_skip (P : Params) (b : ℕ) (ts : ℤ) (n : ℕ)
    (inp thr : ℤ → ℚ) (i : ℕ) (s : LoopState)
    (h : (i : ℤ) - (P.futureSpan : ℤ) < s.sampToReenable
      ∨ (P.useBufferEndMask = true
        ∧ P.bufferEndMaskSamp < (n : ℤ) - ((i : ℤ) - (P.futureSpan : ℤ)))) :
    processSample P b ts n inp thr i s =
      { s with
        pastSamplesAbove := (votingUpdate P inp thr ((i : ℤ) - (P.futureSpan : ℤ))
          s.pastSamplesAbove s.futureSamplesAbove).1
        futureSamplesAbove := (votingUpdate P inp thr ((i : ℤ) - (P.futureSpan : ℤ))
          s.pastSamplesAbove s.futureSamplesAbove).2 } := by
  dsimp only [processSample]
  rw [if_pos h]

theorem processSample_eval (P : Params) (b : ℕ) (ts : ℤ) (n : ℕ)
    (inp thr : ℤ → ℚ) (i : ℕ) (s : LoopState)
    (h : ¬ ((i : ℤ) - (P.futureSpan : ℤ) < s.sampToReenable
      ∨ (P.useBufferEndMask = true
        ∧ P.bufferEndMaskSamp < (n : ℤ) - ((i : ℤ) - (P.futureSpan : ℤ))))) :
    processSample P b ts n inp thr i s =
      evaluateCandidate P b ts n inp thr ((i : ℤ) - (P.futureSpan : ℤ))
        { s with
          pastSamplesAbove := (votingUpdate P inp thr ((i : ℤ) - (P.futureSpan : ℤ))
            s.pastSamplesAbove s.futureSamplesAbove).1
          futureSamplesAbove := (votingUpdate P inp thr ((i : ℤ) - (P.futureSpan : ℤ))
            s.pastSamplesAbove s.futureSamplesAbove).2 } := by
  dsimp only [processSample]
  rw [if_neg h]

theorem evaluateCandidate_no_fire (P : Params) (b : ℕ) (ts : ℤ) (n : ℕ)
    (inp thr : ℤ → ℚ) (c : ℤ) (s : LoopState)
    (h : (triggerDecision P s.jumpLimitElapsed s.pastSamplesAbove s.futureSamplesAbove
      (inp (c - 1)) (inp c) (thr (c - 1)) (thr c)).1 = false) :
    evaluateCandidate P b ts n inp thr c s =
      { s with jumpLimitElapsed := (triggerDecision P s.jumpLimitElapsed
          s.pastSamplesAbove s.futureSamplesAbove
          (inp (c - 1)) (inp c) (thr (c - 1)) (thr c)).2 } := by
  dsimp only [evaluateCandidate]
  rw [if_neg (by rw [h]; exact Bool.false_ne_true)]

theorem evaluateCandidate_fire (P : Params) (b : ℕ) (ts : ℤ) (n : ℕ)
    (inp thr : ℤ → ℚ) (c : ℤ) (s : LoopState)
    (h : (triggerDecision P s.jumpLimitElapsed s.pastSamplesAbove s.futureSamplesAbove
      (inp (c - 1)) (inp c) (thr (c - 1)) (thr c)).1 = true) :
    evaluateCandidate P b ts n inp thr c s =
      if max c 0 + P.eventDurationSamp ≤ (n : ℤ) then
        { s with
          sampToReenable := c + 1 + P.timeoutSamp
          jumpLimitElapsed := (triggerDecision P s.jumpLimitElapsed
            s.pastSamplesAbove s.futureSamplesAbove
            (inp (c - 1)) (inp c) (thr (c - 1)) (thr c)).2
          events := s.events ++ [{ bufIdx := b, ts := ts + max c 0
                                   eventState := true, cross := ts + c },
            { bufIdx := b, ts := ts + (max c 0 + P.eventDurationSamp)
              eventState := false, cross := ts + c }] }
      else
        { s with
          sampToReenable := c + 1 + P.timeoutSamp
          jumpLimitElapsed := (triggerDecision P s.jumpLimitElapsed
            s.pastSamplesAbove s.futureSamplesAbove
            (inp (c - 1)) (inp c) (thr (c - 1)) (thr c)).2
          turnoffEvent := some { ts := ts + (max c 0 + P.eventDurationSamp), cross := ts + c }
          events := s.events ++ [{ bufIdx := b, ts := ts + max c 0
                                   eventState := true, cross := ts + c }] } := by
  dsimp only [evaluateCandidate]
  rw [if_pos h]

theorem votingUpdate_zero_spans (P : Params) (inp thr : ℤ → ℚ) (c : ℤ) (pa fa : ℤ)
    (hps : P.pastSpan = 0) (hfs : P.futureSpan = 0) :
    votingUpdate P inp thr c pa fa = (pa, fa) := by
  simp [votingUpdate, hps, hfs]

theorem triggerDecision_posOnly (P : Params) (hpos : P.posOn = true)
    (hneg : P.negOn = false) (jle pa fa : ℤ) (a b c d : ℚ) :
    triggerDecision P jle pa fa a b c d
      = ((shouldTrigger P jle pa fa true a b c d).1,
         (shouldTrigger P jle pa fa true a b c d).2) := by
  dsimp only [triggerDecision]
  rw [hpos, hneg]
  rcases hb : (shouldTrigger P jle pa fa true a b c d).1 <;> simp [hb]

theorem shouldTrigger_gate_burn (P : Params) (hjl : P.useJumpLimit = false)
    (hprod : P.jumpLimitSleep * P.sampleRate = 0) (pa fa : ℤ) (a b c d : ℚ) :
    shouldTrigger P 0 pa fa true a b c d = (false, 1) := by
  unfold shouldTrigger
  rw [if_neg (by simp [hjl]), if_pos (by rw [hprod]; norm_num)]
  norm_num

theorem shouldTrigger_ramp (P : Params) (hjl : P.useJumpLimit = false)
    (hprod : P.jumpLimitSleep * P.sampleRate = 0)
    (hps : P.pastSpan = 0) (hfs : P.futureSpan = 0)
    (pre post preT postT : ℚ) :
    shouldTrigger P 1 0 0 true pre post preT postT
      = ((!decide (preT < pre)) && decide (postT < post), 1) := by
  unfold shouldTrigger
  rw [if_neg (by simp [hjl]), if_neg (by rw [hprod]; norm_num)]
  simp [hps, hfs]

theorem ramp_phaseA (P : Params)
    (hps : P.pastSpan = 0) (hfs : P.futureSpan = 0)
    (hpos : P.posOn = true) (hneg : P.negOn = false)
    (hjl : P.useJumpLimit = false) (hmask : P.useBufferEndMask = false)
    (hprod : P.jumpLimitSleep * P.sampleRate = 0)
    (b : ℕ) (ts : ℤ) (n : ℕ) (inp thr : ℤ → ℚ) (T : ℚ) (rp : List ℚ)
    (hinp : ∀ idx : ℕ, inp (idx : ℤ) = rp.getD idx 0)
    (hthr : ∀ idx : ℕ, idx < n → thr (idx : ℤ) = T)
    (kx : ℕ) (hkxn : kx < n)
    (hbelow : ∀ j : ℕ, j < kx → rp.getD j 0 ≤ T) :
    ∀ k : ℕ, 2 ≤ k → k ≤ kx →
    processSamples P b ts n inp thr k ⟨0, 0, 1, 0, none, []⟩ = ⟨0, 0, 1, 1, none, []⟩ := by
  intro k
  induction k with
  | zero => omega
  | succ m ih =>
    intro h2 hkx
    rcases Nat.lt_or_ge m 2 with hm | hm
    · -- m + 1 = 2: the first two samples
      have hm1 : m = 1 := by omega
      subst hm1
      rw [processSamples_succ, processSamples_succ, processSamples_zero]
      rw [processSample_skip P b ts n inp thr 0 _ (Or.inl (by simp [hfs]))]
      rw [votingUpdate_zero_spans P inp thr _ _ _ hps hfs]
      rw [processSample_eval P b ts n inp thr 1 _
        (by rw [hfs, hmask]; norm_num)]
      rw [votingUpdate_zero_spans P inp thr _ _ _ hps hfs]
      rw [evaluateCandidate_no_fire P b ts n inp thr _ _
        (by rw [triggerDecision_posOnly P hpos hneg,
                shouldTrigger_gate_burn P hjl hprod])]
      rw [triggerDecision_posOnly P hpos hneg, shouldTrigger_gate_burn P hjl hprod]
    · -- 2 <= m < kx: evaluated but below threshold, no trigger
      rw [processSamples_succ, ih hm (by omega)]
      have hmkx : m < kx := by omega
      have hmn : m < n := by omega
      have hdec : (triggerDecision P (1 : ℤ) 0 0
          (inp ((m : ℤ) - (P.futureSpan : ℤ) - 1)) (inp ((m : ℤ) - (P.futureSpan : ℤ)))
          (thr ((m : ℤ) - (P.futureSpan : ℤ) - 1)) (thr ((m : ℤ) - (P.futureSpan : ℤ)))).1
          = false := by
        rw [triggerDecision_posOnly P hpos hneg, shouldTrigger_ramp P hjl hprod hps hfs]
        have hcm : (m : ℤ) - (P.futureSpan : ℤ) = ((m : ℕ) : ℤ) := by
          rw [hfs]; simp
        rw [hcm, hinp m, hthr m hmn]
        have hpost : decide (T < rp.getD m 0) = false :=
          decide_eq_false (not_lt.mpr (hbelow m hmkx))
        rw [hpost, Bool.and_false]
      have hnot : ¬ ((m : ℤ) - (P.futureSpan : ℤ)
            < (⟨0, 0, 1, 1, none, []⟩ : LoopState).sampToReenable
          ∨ (P.useBufferEndMask = true
            ∧ P.bufferEndMaskSamp < (n : ℤ) - ((m : ℤ) - (P.futureSpan : ℤ)))) := by
        rw [hfs, hmask]
        push_neg
        refine ⟨?_, fun hc => absurd hc (by simp)⟩
        show (1 : ℤ) ≤ (m : ℤ) - ((0 : ℕ) : ℤ)
        omega
      rw [processSample_eval P b ts n inp thr m _ hnot]
      rw [votingUpdate_zero_spans P inp thr _ _ _ hps hfs]
      rw [evaluateCandidate_no_fire P b ts n inp thr _ _ hdec]
      rw [triggerDecision_posOnly P hpos hneg, shouldTrigger_ramp P hjl hprod hps hfs]

theorem evaluateCandidate_jumpLimitElapsed (P : Params) (b : ℕ) (ts : ℤ) (n : ℕ)
    (inp thr : ℤ → ℚ) (c : ℤ) (s : LoopState) :
    (evaluateCandidate P b ts n inp thr c s).jumpLimitElapsed
      = (triggerDecision P s.jumpLimitElapsed s.pastSamplesAbove s.futureSamplesAbove
          (inp (c - 1)) (inp c) (thr (c - 1)) (thr c)).2 := by
  dsimp only [evaluateCandidate]
  repeat' split
  all_goals rfl

theorem ramp_phaseBC (P : Params)
    (hps : P.pastSpan = 0) (hfs : P.futureSpan = 0)
    (hpos : P.posOn = true) (hneg : P.negOn = false)
    (hjl : P.useJumpLimit = false) (hmask : P.useBufferEndMask = false)
    (hprod : P.jumpLimitSleep * P.sampleRate = 0)
    (b : ℕ) (ts : ℤ) (n : ℕ) (inp thr : ℤ → ℚ) (T : ℚ) (rp : List ℚ)
    (hinp : ∀ idx : ℕ, inp (idx : ℤ) = rp.getD idx 0)
    (hthr : ∀ idx : ℕ, idx < n → thr (idx : ℤ) = T)
    (kx : ℕ) (hkx2 : 2 ≤ kx) (hkxn : kx < n)
    (hmono : ∀ a c : ℕ, a ≤ c → c < n → rp.getD a 0 ≤ rp.getD c 0)
    (hbelow : ∀ j : ℕ, j < kx → rp.getD j 0 ≤ T)
    (habove : T < rp.getD kx 0) :
    ∀ k : ℕ, kx < k → k ≤ n →
    processSamples P b ts n inp thr k ⟨0, 0, 1, 0, none, []⟩
      = evaluateCandidate P b ts n inp thr ((kx : ℤ) - (P.futureSpan : ℤ))
          ⟨0, 0, 1, 1, none, []⟩ := by
  intro k
  induction k with
  | zero => omega
  | succ m ih =>
    intro hlo hhi
    rcases Nat.lt_or_ge kx m with hm | hm
    · -- steady phase: the post-fire state is a fixed point of the loop body
      rw [processSamples_succ, ih hm (by omega)]
      set S := evaluateCandidate P b ts n inp thr ((kx : ℤ) - (P.futureSpan : ℤ))
        (⟨0, 0, 1, 1, none, []⟩ : LoopState) with hS
      have hSpa : S.pastSamplesAbove = 0 := by
        rw [hS, evaluateCandidate_pastSamplesAbove]
      have hSfa : S.futureSamplesAbove = 0 := by
        rw [hS, evaluateCandidate_futureSamplesAbove]
      have hSjle : S.jumpLimitElapsed = 1 := by
        rw [hS, evaluateCandidate_jumpLimitElapsed]
        show (triggerDecision P 1 0 0 _ _ _ _).2 = 1
        rw [triggerDecision_posOnly P hpos hneg, shouldTrigger_ramp P hjl hprod hps hfs]
      by_cases hskip : ((m : ℤ) - (P.futureSpan : ℤ) < S.sampToReenable
        ∨ (P.useBufferEndMask = true
          ∧ P.bufferEndMaskSamp < (n : ℤ) - ((m : ℤ) - (P.futureSpan : ℤ))))
      · rw [processSample_skip P b ts n inp thr m S hskip]
        rw [votingUpdate_zero_spans P inp thr _ _ _ hps hfs]
      · rw [processSample_eval P b ts n inp thr m S hskip]
        rw [votingUpdate_zero_spans P inp thr _ _ _ hps hfs]
        show evaluateCandidate P b ts n inp thr ((m : ℤ) - (P.futureSpan : ℤ)) S = S
        have hm1n : m - 1 < n := by omega
        have hdec : (triggerDecision P S.jumpLimitElapsed S.pastSamplesAbove
            S.futureSamplesAbove
            (inp ((m : ℤ) - (P.futureSpan : ℤ) - 1)) (inp ((m : ℤ) - (P.futureSpan : ℤ)))
            (thr ((m : ℤ) - (P.futureSpan : ℤ) - 1)) (thr ((m : ℤ) - (P.futureSpan : ℤ)))).1
            = false := by
          rw [hSpa, hSfa, hSjle, triggerDecision_posOnly P hpos hneg,
            shouldTrigger_ramp P hjl hprod hps hfs]
          have hcm : (m : ℤ) - (P.futureSpan : ℤ) - 1 = ((m - 1 : ℕ) : ℤ) := by
            rw [hfs]; omega
          rw [hcm, hinp (m - 1), hthr (m - 1) hm1n]
          have hpre : decide (T < rp.getD (m - 1) 0) = true :=
            decide_eq_true (lt_of_lt_of_le habove (hmono kx (m - 1) (by omega) hm1n))
          rw [hpre]
          simp
        rw [evaluateCandidate_no_fire P b ts n inp thr _ S hdec]
        have hX : (triggerDecision P S.jumpLimitElapsed S.pastSamplesAbove
            S.futureSamplesAbove
            (inp ((m : ℤ) - (P.futureSpan : ℤ) - 1)) (inp ((m : ℤ) - (P.futureSpan : ℤ)))
            (thr ((m : ℤ) - (P.futureSpan : ℤ) - 1)) (thr ((m : ℤ) - (P.futureSpan : ℤ)))).2
            = S.jumpLimitElapsed := by
          rw [hSpa, hSfa, hSjle, triggerDecision_posOnly P hpos hneg,
            shouldTrigger_ramp P hjl hprod hps hfs]
        rw [hX]
    · -- the fire step at index kx
      have hmkx : m = kx := by omega
      subst hmkx
      rw [processSamples_succ,
        ramp_phaseA P hps hfs hpos hneg hjl hmask hprod b ts n inp thr T rp hinp hthr
          m hkxn hbelow m hkx2 (le_refl m)]
      have hnot : ¬ (((m : ℕ) : ℤ) - (P.futureSpan : ℤ)
            < (⟨0, 0, 1, 1, none, []⟩ : LoopState).sampToReenable
          ∨ (P.useBufferEndMask = true
            ∧ P.bufferEndMaskSamp < (n : ℤ) - (((m : ℕ) : ℤ) - (P.futureSpan : ℤ)))) := by
        rw [hfs, hmask]
        push_neg
        refine ⟨?_, fun hc => absurd hc (by simp)⟩
        show (1 : ℤ) ≤ (m : ℤ) - ((0 : ℕ) : ℤ)
        omega
      rw [processSample_eval P b ts n inp thr m _ hnot]
      rw [votingUpdate_zero_spans P inp thr _ _ _ hps hfs]

/-- C3: with both spans zero, rising-only detection, jump limit and
buffer-end mask disabled, `jumpLimitSleep * sampleRate = 0`, and a constant
threshold `T`: a monotone input whose first sample above `T` is at index
`kx ≥ 2` produces exactly one rising event, at index `kx`.  (The claim as
stated fails for `kx = 1`: the sleep gate consumes the first evaluated
candidate after acquisition start, see the counterexample.) -/
theorem C3_amended (P : Params)
    (hps : P.pastSpan = 0) (hfs : P.futureSpan = 0)
    (hpos : P.posOn = true) (hneg : P.negOn = false)
    (hjl : P.useJumpLimit = false) (hmask : P.useBufferEndMask = false)
    (hprod : P.jumpLimitSleep * P.sampleRate = 0)
    (ts0 : ℤ) (T : ℚ) (rp : List ℚ) (kx : ℕ)
    (hkx2 : 2 ≤ kx) (hkxn : kx < rp.length)
    (hmono : ∀ a c : ℕ, a ≤ c → c < rp.length → rp.getD a 0 ≤ rp.getD c 0)
    (hbelow : ∀ j : ℕ, j < kx → rp.getD j 0 ≤ T)
    (habove : T < rp.getD kx 0) :
    onEvents (runFrom P 0 ts0 (initState P) [rp.map (fun v => (v, T))]).2
      = [⟨0, ts0 + (kx : ℤ), true, ts0 + (kx : ℤ)⟩] := by
  have hfst : (rp.map (fun v => (v, T))).map Prod.fst = rp := by
    rw [List.map_map]
    exact List.map_id rp
  have hinp : ∀ idx : ℕ,
      inputAt (initState P).inputHistory ((rp.map (fun v => (v, T))).map Prod.fst) (idx : ℤ)
        = rp.getD idx 0 := by
    intro idx
    unfold inputAt
    rw [if_neg (by omega), hfst]
    simp
  have hthr : ∀ idx : ℕ, idx < (rp.map (fun v => (v, T))).length →
      inputAt (initState P).thresholdHistory ((rp.map (fun v => (v, T))).map Prod.snd) (idx : ℤ)
        = T := by
    intro idx hidx
    unfold inputAt
    rw [if_neg (by omega)]
    have hlt : (idx : ℤ).toNat < ((rp.map (fun v => (v, T))).map Prod.snd).length := by
      simp at hidx ⊢
      exact hidx
    rw [List.getD_eq_getElem _ _ hlt]
    simp
  have hls0 : initLoopState 0 ts0 (rp.map (fun v => (v, T))).length (initState P)
      = (⟨0, 0, 1, 0, none, []⟩ : LoopState) := by
    show ({ pastSamplesAbove := 0, futureSamplesAbove := 0
            sampToReenable := (P.pastSpan : ℤ) + (P.futureSpan : ℤ) + 1
            jumpLimitElapsed := qtrunc (P.jumpLimitSleep * P.sampleRate)
            turnoffEvent := none, events := [] } : LoopState) = _
    rw [hps, hfs, hprod]
    simp [qtrunc]
  have h1 : (runFrom P 0 ts0 (initState P) [rp.map (fun v => (v, T))]).2
      = (processSamples P 0 ts0 (rp.map (fun v => (v, T))).length
          (inputAt (initState P).inputHistory ((rp.map (fun v => (v, T))).map Prod.fst))
          (inputAt (initState P).thresholdHistory ((rp.map (fun v => (v, T))).map Prod.snd))
          (rp.map (fun v => (v, T))).length
          (initLoopState 0 ts0 (rp.map (fun v => (v, T))).length (initState P))).events
        ++ [] := rfl
  rw [h1, hls0]
  rw [ramp_phaseBC P hps hfs hpos hneg hjl hmask hprod 0 ts0
      (rp.map (fun v => (v, T))).length _ _ T rp hinp hthr kx hkx2
      (by simpa using hkxn)
      (fun a c hac hc => hmono a c hac (by simpa using hc)) hbelow habove
      (rp.map (fun v => (v, T))).length (by simpa using hkxn) (le_refl _)]
  have hc : (kx : ℤ) - (P.futureSpan : ℤ) = (kx : ℤ) := by rw [hfs]; simp
  rw [hc]
  have hdec : (triggerDecision P 1 0 0
      (inputAt (initState P).inputHistory ((rp.map (fun v => (v, T))).map Prod.fst)
        ((kx : ℤ) - 1))
      (inputAt (initState P).inputHistory ((rp.map (fun v => (v, T))).map Prod.fst) (kx : ℤ))
      (inputAt (initState P).thresholdHistory ((rp.map (fun v => (v, T))).map Prod.snd)
        ((kx : ℤ) - 1))
      (inputAt (initState P).thresholdHistory ((rp.map (fun v => (v, T))).map Prod.snd)
        (kx : ℤ))).1 = true := by
    rw [triggerDecision_posOnly P hpos hneg, shouldTrigger_ramp P hjl hprod hps hfs]
    have hk1 : (kx : ℤ) - 1 = ((kx - 1 : ℕ) : ℤ) := by omega
    rw [hk1, hinp (kx - 1), hinp kx,
      hthr (kx - 1) (by simp only [List.length_map]; omega),
      hthr kx (by simpa using hkxn)]
    have hpre : decide (T < rp.getD (kx - 1) 0) = false :=
      decide_eq_false (not_lt.mpr (hbelow (kx - 1) (by omega)))
    have hpost : decide (T < rp.getD kx 0) = true := decide_eq_true habove
    rw [hpre, hpost]
    rfl
  rw [evaluateCandidate_fire P 0 ts0 (rp.map (fun v => (v, T))).length _ _ (kx : ℤ)
      ⟨0, 0, 1, 1, none, []⟩ hdec]
  have hmax : max (kx : ℤ) 0 = (kx : ℤ) := max_eq_left (Int.natCast_nonneg kx)
  rw [hmax]
  split <;> simp [onEvents]

set_option maxHeartbeats 4000000 in
/-- C3 counterexample: all side conditions of the claim hold - spans `0`,
rising-only, jump limit and buffer-end mask disabled, constant threshold
`0`, strictly increasing input `-1, 1, 2, 3` that starts below and ends
above the threshold, whose first sample above threshold (index `1`) is past
the one-sample warm-up - yet the run emits no rising event at all: the
sleep gate of `shouldTrigger` consumes the candidate at index `1` because
`startAcquisition` set `jumpLimitElapsed` to exactly
`jumpLimitSleep * sampleRate`. -/
theorem C3_counterexample :
    onEvents (runFrom ⟨true, false, 0, 0, 1, 1, false, 5, 0, 1, false, 0, 0, 0⟩ 0 0
      (initState ⟨true, false, 0, 0, 1, 1, false, 5, 0, 1, false, 0, 0, 0⟩)
      [[((-1 : ℚ), (0 : ℚ)), ((1 : ℚ), (0 : ℚ)), ((2 : ℚ), (0 : ℚ)), ((3 : ℚ), (0 : ℚ))]]).2
      = []
    ∧ ((-1 : ℚ) < 1 ∧ (1 : ℚ) < 2 ∧ (2 : ℚ) < 3)
    ∧ ((-1 : ℚ) ≤ 0 ∧ (0 : ℚ) < 1) := by
  refine ⟨?_, by norm_num, by norm_num⟩
  norm_num [runFrom, processBuffer, processSamples, processSample, evaluateCandidate,
    triggerDecision, votingUpdate, initLoopState, shouldTrigger, inputAt,
    CircularArray.get, CircularArray.enqueueArray, setLoop, cmod, initState,
    CircularArray.ofLength, qtrunc, Int.tmod, List.getD, onEvents, Int.toNat_ofNat,
    show Int.toNat 2 = 2 from rfl, show Int.toNat 3 = 3 from rfl]

theorem C3_amended_witness :
    onEvents (runFrom ⟨true, false, 0, 0, 1, 1, false, 5, 0, 1, false, 0, 0, 0⟩ 0 0
      (initState ⟨true, false, 0, 0, 1, 1, false, 5, 0, 1, false, 0, 0, 0⟩)
      [([(-1 : ℚ), -1, 1, 2]).map (fun v => (v, (0 : ℚ)))]).2
      = [⟨0, 2, true, 2⟩] :=
  C3_amended ⟨true, false, 0, 0, 1, 1, false, 5, 0, 1, false, 0, 0, 0⟩
    rfl rfl rfl rfl rfl rfl (by norm_num) 0 0 [(-1 : ℚ), -1, 1, 2] 2
    (by norm_num) (by norm_num)
    (by
      intro a c hac hc
      have hc4 : c < 4 := by simpa using hc
      interval_cases c <;> interval_cases a <;> norm_num [List.getD])
    (by
      intro j hj
      interval_cases j <;> norm_num [List.getD])
    (by norm_num [List.getD])

theorem offEvents_append (l1 l2 : List Ev) :
    offEvents (l1 ++ l2) = offEvents l1 ++ offEvents l2 := by
  simp [offEvents, List.filter_append]

theorem processSamples_growth (P : Params) (b : ℕ) (ts : ℤ) (n : ℕ)
    (inp thr : ℤ → ℚ) : ∀ (k : ℕ) (s : LoopState),
    ∃ D : List Ev,
      (processSamples P b ts n inp thr k s).events = s.events ++ D
      ∧ (onEvents D = [] → D = []
          ∧ (processSamples P b ts n inp thr k s).turnoffEvent = s.turnoffEvent) := by
  intro k
  induction k with
  | zero =>
    intro s
    exact ⟨[], by rw [processSamples_zero, List.append_nil], fun _ => ⟨rfl, rfl⟩⟩
  | succ m ih =>
    intro s
    obtain ⟨D, hD, hDim⟩ := ih s
    rw [processSamples_succ]
    rcases processSample_step_cases P b ts n inp thr m
        (processSamples P b ts n inp thr m s) with
      ⟨he, -, ht⟩ | ⟨-, -, ⟨he, -, ht⟩ | ⟨he, -, ht⟩⟩
    · exact ⟨D, by rw [he, hD],
        fun h => ⟨(hDim h).1, by rw [ht]; exact (hDim h).2⟩⟩
    · refine ⟨D ++ _, by rw [he, hD, List.append_assoc], fun h => absurd h ?_⟩
      rw [onEvents_append]
      simp [onEvents]
    · refine ⟨D ++ _, by rw [he, hD, List.append_assoc], fun h => absurd h ?_⟩
      rw [onEvents_append]
      simp [onEvents]

/-- Absolute sample number at which buffer `j` of a contiguous run starts. -/
def bufStartTs (ts0 : ℤ) (bufs : List (List (ℚ × ℚ))) (j : ℕ) : ℤ :=
  ts0 + ((((bufs.take j).map List.length).sum : ℕ) : ℤ)

theorem bufStartTs_zero (ts0 : ℤ) (bufs : List (List (ℚ × ℚ))) :
    bufStartTs ts0 bufs 0 = ts0 := by
  simp [bufStartTs]

theorem bufStartTs_cons_succ (ts0 : ℤ) (buf : List (ℚ × ℚ))
    (rest : List (List (ℚ × ℚ))) (i : ℕ) :
    bufStartTs ts0 (buf :: rest) (i + 1)
      = bufStartTs (ts0 + (buf.length : ℤ)) rest i := by
  unfold bufStartTs
  rw [List.take_succ_cons, List.map_cons, List.sum_cons]
  push_cast
  ring

theorem processBuffer_pending_keep (P : Params) (b : ℕ) (ts : ℤ) (buf : List (ℚ × ℚ))
    (s : DetectorState) (pe : PendingEv)
    (hpend : s.turnoffEvent = some pe)
    (hkeep : ¬ (max 0 (pe.ts - ts) < (buf.length : ℤ)))
    (hnoon : onEvents (processBuffer P b ts buf s).2 = []) :
    (processBuffer P b ts buf s).2 = []
    ∧ (processBuffer P b ts buf s).1.turnoffEvent = some pe := by
  have hls0 : initLoopState b ts buf.length s
      = ⟨s.pastSamplesAbove, s.futureSamplesAbove, s.sampToReenable, s.jumpLimitElapsed,
         some pe, []⟩ := by
    unfold initLoopState
    rw [hpend]
    dsimp only
    rw [if_neg hkeep]
  obtain ⟨D, hD, himp⟩ := processSamples_growth P b ts buf.length
    (inputAt s.inputHistory (buf.map Prod.fst))
    (inputAt s.thresholdHistory (buf.map Prod.snd))
    buf.length (initLoopState b ts buf.length s)
  have h2 : (processBuffer P b ts buf s).2
      = (initLoopState b ts buf.length s).events ++ D := hD
  have h3 : onEvents D = [] := by
    rw [h2, hls0] at hnoon
    simpa using hnoon
  obtain ⟨hD0, hto⟩ := himp h3
  constructor
  · rw [h2, hls0, hD0]
    rfl
  · have h4 : (processBuffer P b ts buf s).1.turnoffEvent
        = (processSamples P b ts buf.length
            (inputAt s.inputHistory (buf.map Prod.fst))
            (inputAt s.thresholdHistory (buf.map Prod.snd))
            buf.length (initLoopState b ts buf.length s)).turnoffEvent := rfl
    rw [h4, hto, hls0]

theorem processBuffer_pending_emit (P : Params) (b : ℕ) (ts : ℤ) (buf : List (ℚ × ℚ))
    (s : DetectorState) (pe : PendingEv)
    (hpend : s.turnoffEvent = some pe)
    (hemit : max 0 (pe.ts - ts) < (buf.length : ℤ))
    (hnoon : onEvents (processBuffer P b ts buf s).2 = []) :
    (processBuffer P b ts buf s).2
      = [{ bufIdx := b, ts := pe.ts, eventState := false, cross := pe.cross }]
    ∧ (processBuffer P b ts buf s).1.turnoffEvent = none := by
  have hls0 : initLoopState b ts buf.length s
      = ⟨s.pastSamplesAbove, s.futureSamplesAbove, s.sampToReenable, s.jumpLimitElapsed,
         none,
         [{ bufIdx := b, ts := pe.ts, eventState := false, cross := pe.cross }]⟩ := by
    unfold initLoopState
    rw [hpend]
    dsimp only
    rw [if_pos hemit]
  obtain ⟨D, hD, himp⟩ := processSamples_growth P b ts buf.length
    (inputAt s.inputHistory (buf.map Prod.fst))
    (inputAt s.thresholdHistory (buf.map Prod.snd))
    buf.length (initLoopState b ts buf.length s)
  have h2 : (processBuffer P b ts buf s).2
      = (initLoopState b ts buf.length s).events ++ D := hD
  have h3 : onEvents D = [] := by
    rw [h2, hls0, onEvents_append] at hnoon
    have : onEvents [{ bufIdx := b, ts := pe.ts, eventState := false, cross := pe.cross }]
        = [] := by simp [onEvents]
    rw [this] at hnoon
    simpa using hnoon
  obtain ⟨hD0, hto⟩ := himp h3
  constructor
  · rw [h2, hls0, hD0]
    rfl
  · have h4 : (processBuffer P b ts buf s).1.turnoffEvent
        = (processSamples P b ts buf.length
            (inputAt s.inputHistory (buf.map Prod.fst))
            (inputAt s.thresholdHistory (buf.map Prod.snd))
            buf.length (initLoopState b ts buf.length s)).turnoffEvent := rfl
    rw [h4, hto, hls0]

theorem processBuffer_noPending (P : Params) (b : ℕ) (ts : ℤ) (buf : List (ℚ × ℚ))
    (s : DetectorState)
    (hpend : s.turnoffEvent = none)
    (hnoon : onEvents (processBuffer P b ts buf s).2 = []) :
    (processBuffer P b ts buf s).2 = []
    ∧ (processBuffer P b ts buf s).1.turnoffEvent = none := by
  have hls0 : initLoopState b ts buf.length s
      = ⟨s.pastSamplesAbove, s.futureSamplesAbove, s.sampToReenable, s.jumpLimitElapsed,
         none, []⟩ := by
    unfold initLoopState
    rw [hpend]
  obtain ⟨D, hD, himp⟩ := processSamples_growth P b ts buf.length
    (inputAt s.inputHistory (buf.map Prod.fst))
    (inputAt s.thresholdHistory (buf.map Prod.snd))
    buf.length (initLoopState b ts buf.length s)
  have h2 : (processBuffer P b ts buf s).2
      = (initLoopState b ts buf.length s).events ++ D := hD
  have h3 : onEvents D = [] := by
    rw [h2, hls0] at hnoon
    simpa using hnoon
  obtain ⟨hD0, hto⟩ := himp h3
  constructor
  · rw [h2, hls0, hD0]
    rfl
  · have h4 : (processBuffer P b ts buf s).1.turnoffEvent
        = (processSamples P b ts buf.length
            (inputAt s.inputHistory (buf.map Prod.fst))
            (inputAt s.thresholdHistory (buf.map Prod.snd))
            buf.length (initLoopState b ts buf.length s)).turnoffEvent := rfl
    rw [h4, hto, hls0]

theorem runFrom_noPending (P : Params) : ∀ (bufs : List (List (ℚ × ℚ))) (b : ℕ) (ts : ℤ)
    (s : DetectorState), s.turnoffEvent = none →
    onEvents (runFrom P b ts s bufs).2 = [] →
    (runFrom P b ts s bufs).2 = [] ∧ (runFrom P b ts s bufs).1.turnoffEvent = none := by
  intro bufs
  induction bufs with
  | nil => intro b ts s h hn; exact ⟨rfl, h⟩
  | cons buf rest ih =>
    intro b ts s h hn
    have hsplit : (runFrom P b ts s (buf :: rest)).2
        = (processBuffer P b ts buf s).2
          ++ (runFrom P (b + 1) (ts + buf.length) (processBuffer P b ts buf s).1 rest).2 := rfl
    rw [hsplit, onEvents_append] at hn
    obtain ⟨hn1, hn2⟩ := List.append_eq_nil.mp hn
    obtain ⟨hb, hr⟩ := processBuffer_noPending P b ts buf s h hn1
    obtain ⟨hb2, hr2⟩ := ih (b + 1) (ts + buf.length) _ hr hn2
    constructor
    · rw [hsplit, hb, hb2]
      rfl
    · have hfst : (runFrom P b ts s (buf :: rest)).1
          = (runFrom P (b + 1) (ts + buf.length) (processBuffer P b ts buf s).1 rest).1 := rfl
      rw [hfst, hr2]

theorem runFrom_pending_delivery (P : Params) :
    ∀ (bufs : List (List (ℚ × ℚ))) (b0 : ℕ) (ts0 : ℤ) (s : DetectorState) (pe : PendingEv)
      (j : ℕ),
    s.turnoffEvent = some pe → ts0 ≤ pe.ts →
    onEvents (runFrom P b0 ts0 s bufs).2 = [] →
    j < bufs.length →
    pe.ts < bufStartTs ts0 bufs j + (((bufs.getD j []).length : ℕ) : ℤ) →
    (∀ i : ℕ, i < j → bufStartTs ts0 bufs i + (((bufs.getD i []).length : ℕ) : ℤ) ≤ pe.ts) →
    offEvents (runFrom P b0 ts0 s bufs).2
      = [{ bufIdx := b0 + j, ts := pe.ts, eventState := false, cross := pe.cross }]
    ∧ (runFrom P b0 ts0 s bufs).1.turnoffEvent = none := by
  intro bufs
  induction bufs with
  | nil =>
    intro b0 ts0 s pe j hpend hts hnoon hj hin hbef
    exact absurd hj (by simp)
  | cons buf rest ih =>
    intro b0 ts0 s pe j hpend hts hnoon hj hin hbef
    have hsplit : (runFrom P b0 ts0 s (buf :: rest)).2
        = (processBuffer P b0 ts0 buf s).2
          ++ (runFrom P (b0 + 1) (ts0 + buf.length)
              (processBuffer P b0 ts0 buf s).1 rest).2 := rfl
    have hfst : (runFrom P b0 ts0 s (buf :: rest)).1
        = (runFrom P (b0 + 1) (ts0 + buf.length)
            (processBuffer P b0 ts0 buf s).1 rest).1 := rfl
    rw [hsplit, onEvents_append] at hnoon
    obtain ⟨hn1, hn2⟩ := List.append_eq_nil.mp hnoon
    rcases j with - | i
    · rw [bufStartTs_zero, List.getD_cons_zero] at hin
      have hemit : max 0 (pe.ts - ts0) < (buf.length : ℤ) := by omega
      obtain ⟨hb2, hbto⟩ := processBuffer_pending_emit P b0 ts0 buf s pe hpend hemit hn1
      obtain ⟨hr2, hrto⟩ := runFrom_noPending P rest (b0 + 1) (ts0 + buf.length) _ hbto hn2
      constructor
      · rw [hsplit, offEvents_append, hb2, hr2]
        simp [offEvents]
      · rw [hfst, hrto]
    · have h0 := hbef 0 (by omega)
      rw [bufStartTs_zero, List.getD_cons_zero] at h0
      have hkeep : ¬ (max 0 (pe.ts - ts0) < (buf.length : ℤ)) := by omega
      obtain ⟨hb2, hbto⟩ := processBuffer_pending_keep P b0 ts0 buf s pe hpend hkeep hn1
      rw [bufStartTs_cons_succ, List.getD_cons_succ] at hin
      have hbef2 : ∀ i2 : ℕ, i2 < i →
          bufStartTs (ts0 + (buf.length : ℤ)) rest i2
            + (((rest.getD i2 []).length : ℕ) : ℤ) ≤ pe.ts := by
        intro i2 hi2
        have h5 := hbef (i2 + 1) (by omega)
        rw [bufStartTs_cons_succ, List.getD_cons_succ] at h5
        exact h5
      obtain ⟨hoff, hto⟩ := ih (b0 + 1) (ts0 + buf.length) _ pe i hbto h0 hn2
        (by simpa using hj) hin hbef2
      constructor
      · rw [hsplit, offEvents_append, hb2, hoff]
        have hb : b0 + 1 + i = b0 + (i + 1) := by omega
        rw [hb]
        simp [offEvents]
      · rw [hfst, hto]

/-- C7: deferred turn-off events.  Part 1 (CrossingDetector.cpp lines 484 to
503): when a crossing fires and its off-event offset `max c 0 +
eventDurationSamp` exceeds the buffer length, the buffer emits only the
on-event and the off-event is stored as the pending turn-off with its
absolute timestamp.  Part 2 (lines 355 to 362): a pending turn-off carried
by the state is emitted exactly once over any subsequent run in which no
new crossing fires - namely in the first buffer whose span contains its
absolute timestamp, with that timestamp and crossing point - and the
pending slot ends the run cleared. -/
theorem C7_deferred_turnoff :
    (∀ (P : Params) (b : ℕ) (ts : ℤ) (n : ℕ) (inp thr : ℤ → ℚ) (c : ℤ) (s : LoopState),
      (triggerDecision P s.jumpLimitElapsed s.pastSamplesAbove s.futureSamplesAbove
        (inp (c - 1)) (inp c) (thr (c - 1)) (thr c)).1 = true →
      (n : ℤ) < max c 0 + P.eventDurationSamp →
      (evaluateCandidate P b ts n inp thr c s).events
          = s.events ++ [{ bufIdx := b, ts := ts + max c 0
                           eventState := true, cross := ts + c }]
        ∧ (evaluateCandidate P b ts n inp thr c s).turnoffEvent
          = some { ts := ts + (max c 0 + P.eventDurationSamp), cross := ts + c })
    ∧ (∀ (P : Params) (b0 : ℕ) (ts0 : ℤ) (s : DetectorState) (pe : PendingEv)
        (bufs : List (List (ℚ × ℚ))) (j : ℕ),
      s.turnoffEvent = some pe →
      ts0 ≤ pe.ts →
      onEvents (runFrom P b0 ts0 s bufs).2 = [] →
      j < bufs.length →
      pe.ts < bufStartTs ts0 bufs j + (((bufs.getD j []).length : ℕ) : ℤ) →
      (∀ i : ℕ, i < j → bufStartTs ts0 bufs i + (((bufs.getD i []).length : ℕ) : ℤ) ≤ pe.ts) →
      offEvents (runFrom P b0 ts0 s bufs).2
        = [{ bufIdx := b0 + j, ts := pe.ts, eventState := false, cross := pe.cross }]
      ∧ (runFrom P b0 ts0 s bufs).1.turnoffEvent = none) := by
  constructor
  · intro P b ts n inp thr c s hfire hbig
    rw [evaluateCandidate_fire P b ts n inp thr c s hfire]
    rw [if_neg (by omega)]
    exact ⟨rfl, rfl⟩
  · intro P b0 ts0 s pe bufs j hpend hts hnoon hj hin hbef
    exact runFrom_pending_delivery P bufs b0 ts0 s pe j hpend hts hnoon hj hin hbef

set_option maxHeartbeats 4000000 in
theorem C7_deferred_turnoff_witness :
    ((evaluateCandidate ⟨true, false, 0, 0, 1, 1, false, 5, 0, 1, false, 0, 5, 0⟩ 0 0 2
        (fun i => if i < 1 then (-1 : ℚ) else 1) (fun _ => (0 : ℚ)) 1
        ⟨0, 0, 1, 1, none, []⟩).events
        = [] ++ [{ bufIdx := 0, ts := 0 + max 1 0, eventState := true, cross := 0 + 1 }]
      ∧ (evaluateCandidate ⟨true, false, 0, 0, 1, 1, false, 5, 0, 1, false, 0, 5, 0⟩ 0 0 2
          (fun i => if i < 1 then (-1 : ℚ) else 1) (fun _ => (0 : ℚ)) 1
          ⟨0, 0, 1, 1, none, []⟩).turnoffEvent
        = some { ts := 0 + (max 1 0 + 5), cross := 0 + 1 })
    ∧ (offEvents (runFrom ⟨true, false, 0, 0, 1, 1, false, 5, 0, 1, false, 0, 0, 0⟩ 0 0
          ⟨0, 0, 0, 1, CircularArray.ofLength 2, CircularArray.ofLength 2, some ⟨3, 1⟩⟩
          [[((-1 : ℚ), (0 : ℚ)), ((-1 : ℚ), (0 : ℚ))],
           [((-1 : ℚ), (0 : ℚ)), ((-1 : ℚ), (0 : ℚ))]]).2
        = [{ bufIdx := 0 + 1, ts := 3, eventState := false, cross := 1 }]
      ∧ (runFrom ⟨true, false, 0, 0, 1, 1, false, 5, 0, 1, false, 0, 0, 0⟩ 0 0
          ⟨0, 0, 0, 1, CircularArray.ofLength 2, CircularArray.ofLength 2, some ⟨3, 1⟩⟩
          [[((-1 : ℚ), (0 : ℚ)), ((-1 : ℚ), (0 : ℚ))],
           [((-1 : ℚ), (0 : ℚ)), ((-1 : ℚ), (0 : ℚ))]]).1.turnoffEvent = none) :=
  ⟨C7_deferred_turnoff.1 ⟨true, false, 0, 0, 1, 1, false, 5, 0, 1, false, 0, 5, 0⟩ 0 0 2
      (fun i => if i < 1 then (-1 : ℚ) else 1) (fun _ => (0 : ℚ)) 1 ⟨0, 0, 1, 1, none, []⟩
      (by norm_num [triggerDecision, shouldTrigger])
      (by norm_num [max_def]),
   C7_deferred_turnoff.2 ⟨true, false, 0, 0, 1, 1, false, 5, 0, 1, false, 0, 0, 0⟩ 0 0
      ⟨0, 0, 0, 1, CircularArray.ofLength 2, CircularArray.ofLength 2, some ⟨3, 1⟩⟩ ⟨3, 1⟩
      [[((-1 : ℚ), (0 : ℚ)), ((-1 : ℚ), (0 : ℚ))],
       [((-1 : ℚ), (0 : ℚ)), ((-1 : ℚ), (0 : ℚ))]] 1
      rfl (by norm_num)
      (by norm_num [runFrom, processBuffer, processSamples, processSample, evaluateCandidate,
        triggerDecision, votingUpdate, initLoopState, shouldTrigger, inputAt,
        CircularArray.get, CircularArray.enqueueArray, setLoop, cmod,
        CircularArray.ofLength, qtrunc, Int.tmod, List.getD, onEvents, Int.toNat_ofNat])
      (by norm_num)
      (by norm_num [bufStartTs, List.getD])
      (by intro i hi; interval_cases i; norm_num [bufStartTs, List.getD])⟩
